import Mathlib

/-!
Verification development for the XQuery-to-MongoDB CRUD translation core
(`conversion.py` and `xquery_to_mongo.py`).  The Python source is embedded
shallowly: every regex-driven extraction is hand-compiled into an explicit
scanning function over `List Char` with the same backtracking semantics as
Python `re.search` on the concrete pattern, and the dict-building code is
mirrored over association lists that keep Python's insertion-order
semantics.
-/

namespace ML2Mongo

/-! ## Character classes (Python `\s`, `\w`, `str.isdigit`, `str.strip`) -/

/-- Python regex `\s`: space, tab, newline, carriage return, form feed,
vertical tab. -/
def wsChar (c : Char) : Bool :=
  c = ' ' || c = '\t' || c = '\n' || c = '\r' || c = '\x0b' || c = '\x0c'

/-- Python regex `\w` (ASCII fragment): letters, digits, underscore. -/
def wordChar (c : Char) : Bool :=
  ('a' ≤ c && c ≤ 'z') || ('A' ≤ c && c ≤ 'Z') || ('0' ≤ c && c ≤ '9') || c = '_'

/-- ASCII decimal digit, as used by Python `str.isdigit` on ASCII input. -/
def digitChar (c : Char) : Bool :=
  '0' ≤ c && c ≤ '9'

/-- Python `str.strip()` on a character list: whitespace removed from both
ends. -/
def pyStripL (cs : List Char) : List Char :=
  ((cs.dropWhile wsChar).reverse.dropWhile wsChar).reverse

/-- Python `str.strip()`. -/
def pyStrip (s : String) : String :=
  String.mk (pyStripL s.data)

/-- Python `str.strip('()')`: all leading and trailing parenthesis
characters removed (used by `_parse_single_condition`). -/
def stripParensL (cs : List Char) : List Char :=
  let paren := fun c => c = '(' || c = ')'
  ((cs.dropWhile paren).reverse.dropWhile paren).reverse

/-- Python `str.lower()` (ASCII). -/
def pyLowerL (cs : List Char) : List Char :=
  cs.map Char.toLower

/-- Python `str.isdigit()` (ASCII): nonempty and all digits. -/
def isDigitsL (cs : List Char) : Bool :=
  !cs.isEmpty && cs.all digitChar

/-! ## The document / value data model

Python values produced by the converter are strings, ints, floats,
booleans, `None`, dicts and lists.  Integers are represented by their
normalized digit string (Python `int("007") = 7` corresponds to
normalizing `"007"` to `"7"`); floats by the pair of normalized integral
and fractional digit strings (`float("01.50") = 1.5` corresponds to
`("1", "5")`).  Nothing in the converter does arithmetic, so this exact
decimal representation is a faithful abstraction. -/

inductive Doc where
  | str (s : String)
  | intLit (digits : String)
  | floatLit (ip fp : String)
  | bool (b : Bool)
  | null
  | obj (kvs : List (String × Doc))
  | arr (items : List Doc)
deriving Repr

mutual

def Doc.beq : Doc → Doc → Bool
  | .str a, .str b => a = b
  | .intLit a, .intLit b => a = b
  | .floatLit a b, .floatLit c d => a = c && b = d
  | .bool a, .bool b => a = b
  | .null, .null => true
  | .obj a, .obj b => Doc.beqKVs a b
  | .arr a, .arr b => Doc.beqList a b
  | _, _ => false

def Doc.beqKVs : List (String × Doc) → List (String × Doc) → Bool
  | [], [] => true
  | (k, v) :: a, (k', v') :: b => k = k' && Doc.beq v v' && Doc.beqKVs a b
  | _, _ => false

def Doc.beqList : List Doc → List Doc → Bool
  | [], [] => true
  | v :: a, v' :: b => Doc.beq v v' && Doc.beqList a b
  | _, _ => false

end

instance : BEq Doc := ⟨Doc.beq⟩

/-- Python dict assignment `m[k] = v` on an insertion-ordered association
list: overwrite in place if the key exists, else append. -/
def setKey {β : Type} (m : List (String × β)) (k : String) (v : β) : List (String × β) :=
  match m with
  | [] => [(k, v)]
  | (k', v') :: rest => if k' = k then (k, v) :: rest else (k', v') :: setKey rest k v

/-- Key lookup in an association list (Python `m[k]` / `k in m`). -/
def lookupKey {β : Type} (m : List (String × β)) (k : String) : Option β :=
  match m with
  | [] => none
  | (k', v) :: rest => if k' = k then some v else lookupKey rest k

/-! ## Digit normalization (models Python `int(...)` / `float(...)`) -/

/-- Strip leading zeros from a digit string, keeping at least one digit:
`"007" ↦ "7"`, `"000" ↦ "0"`.  Models the value of Python `int` on the
digit string. -/
def normDigits (cs : List Char) : List Char :=
  match cs.dropWhile (fun c => c = '0') with
  | [] => ['0']
  | r => r

/-- Strip trailing zeros from a fractional digit string, keeping at least
one digit: `"50" ↦ "5"`, `"00" ↦ "0"`.  Models the value of Python `float`
on the fractional part. -/
def normFrac (cs : List Char) : List Char :=
  (normDigits cs.reverse).reverse

/-- Matches Python `re.match(r'^[0-9]+\.[0-9]+$', s)`: splits a character
list into integral digits, a dot, and fractional digits, requiring at
least one digit on each side and nothing else. -/
def floatShape (cs : List Char) : Option (List Char × List Char) :=
  match cs.drop (cs.takeWhile digitChar).length with
  | '.' :: rest =>
      if (cs.takeWhile digitChar).isEmpty then none
      else if !rest.isEmpty && rest.all digitChar then
        some (cs.takeWhile digitChar, rest)
      else none
  | _ => none

/-! ## Value Resolver: `_parse_value` (conversion.py lines 543-579)

The Python function returns a `str` both in the function-call branch
(`'(' in value_str`) and in the final fallback; both are embedded as
`Doc.str`, mirroring the fact that the Python value is the same string
object in both cases. -/

def parse_value (valueStr : String) : Doc :=
  let v := pyStripL valueStr.data
  -- string literal: quotes stripped
  if (v.head? = some '"' && v.getLast? = some '"')
      || (v.head? = some '\'' && v.getLast? = some '\'') then
    .str (String.mk (v.drop 1).dropLast)
  -- integer: value_str.isdigit()
  else if isDigitsL v then
    .intLit (String.mk (normDigits v))
  -- float: ^[0-9]+\.[0-9]+$
  else
    match floatShape v with
    | some (ip, fp) => .floatLit (String.mk (normDigits ip)) (String.mk (normFrac fp))
    | none =>
      -- boolean keywords
      if pyLowerL v = "true".data then .bool true
      else if pyLowerL v = "false".data then .bool false
      -- null keywords
      else if pyLowerL v = "null".data || pyLowerL v = "none".data then .null
      -- function call or complex expression: returned unevaluated
      else if v.contains '(' then .str (String.mk v)
      -- fallback: the trimmed original text
      else .str (String.mk v)

/-! ## Path Resolver: `_parse_path` (conversion.py lines 531-541) -/

/-- Python `path.replace('/', '.')`. -/
def slashToDot (s : String) : String :=
  String.mk (s.data.map fun c => if c = '/' then '.' else c)

def parse_path (path contextVar : String) : String :=
  if (("$" ++ contextVar ++ "/").data).isPrefixOf path.data then
    slashToDot (String.mk (path.data.drop (contextVar.data.length + 2)))
  else if path = "$" ++ contextVar then
    "_id"
  else
    slashToDot path

/-! ## Canonical token form of a resolved value

The canonical string form of a `LiteralValue`: the source-language literal
token denoting the value (strings re-quoted, numbers in normalized decimal
form, keyword literals lowercase).  Used to state coercion idempotence. -/

def canonicalToken : Doc → String
  | .str s => "\"" ++ s ++ "\""
  | .intLit d => d
  | .floatLit ip fp => ip ++ "." ++ fp
  | .bool true => "true"
  | .bool false => "false"
  | .null => "null"
  | .obj _ => ""
  | .arr _ => ""

/-! ## Regex scanning primitives

Each Python `re.search` call in the source is hand-compiled into an
explicit scanner.  `scanFor tryHere` models the leftmost-start search:
`tryHere` attempts the whole pattern at one position. -/

def scanFor (tryHere : List Char → Option α) : List Char → Option α
  | [] => tryHere []
  | c :: rest =>
    match tryHere (c :: rest) with
    | some a => some a
    | none => scanFor tryHere rest

/-- Case-sensitive literal prefix match, returning the rest. -/
def matchLit : List Char → List Char → Option (List Char)
  | [], cs => some cs
  | _ :: _, [] => none
  | l :: ls, c :: cs => if c = l then matchLit ls cs else none

/-- Case-insensitive literal prefix match (for `re.IGNORECASE` patterns). -/
def matchLitCI : List Char → List Char → Option (List Char)
  | [], cs => some cs
  | _ :: _, [] => none
  | l :: ls, c :: cs => if c.toLower = l.toLower then matchLitCI ls cs else none

/-- `\s+` followed by a non-whitespace pattern element: the maximal run,
requiring at least one character. -/
def ws1 (cs : List Char) : Option (List Char) :=
  let r := cs.dropWhile wsChar
  if r.length = cs.length then none else some r

/-! ## The path group `\$\w+(?:/SEG+)*` with backtracking

The condition regexes all contain a path group followed by an operator
pattern.  The Kleene star over segments and the greedy segment runs
backtrack exactly as in Python: more iterations are preferred, and within
an iteration a longer run is preferred; on failure the last run is
shortened one character at a time before dropping the iteration. -/

theorem takeWhile_len_le (p : α → Bool) (l : List α) :
    (l.takeWhile p).length ≤ l.length := by
  induction l with
  | nil => simp
  | cons a l ih =>
    simp only [List.takeWhile_cons]
    cases p a <;> simp <;> omega

mutual

def pathSegsTryF (op : List Char → Option α) (segOk : Char → Bool) :
    Nat → List Char → List Char → Option (List Char × α)
  | 0, _, _ => none
  | fuel + 1, acc, cs =>
    (match cs with
     | '/' :: rest =>
        let run := rest.takeWhile segOk
        pathLensF op segOk fuel acc run.reverse (rest.drop run.length)
     | _ => none).orElse
    (fun _ => (op cs).map (fun a => (acc, a)))

def pathLensF (op : List Char → Option α) (segOk : Char → Bool) :
    Nat → List Char → List Char → List Char → Option (List Char × α)
  | 0, _, _, _ => none
  | fuel + 1, acc, segRev, rem =>
    match segRev with
    | [] => none
    | c :: segRev' =>
      match pathSegsTryF op segOk fuel (acc ++ '/' :: segRev.reverse) rem with
      | some r => some r
      | none => pathLensF op segOk fuel acc segRev' (c :: rem)

end

/-- The segment star with Python's backtracking.  The fuel bound
`(|cs| + 2)²` dominates the backtracking call depth: a star iteration
consumes at least one character, and a segment of length `s` is shortened
at most `s` times, each shortening re-exploring at most the remaining
suffix — a depth no worse than quadratic in `|cs|`. -/
def pathSegsTry (op : List Char → Option α) (segOk : Char → Bool)
    (acc : List Char) (cs : List Char) : Option (List Char × α) :=
  pathSegsTryF op segOk ((cs.length + 2) * (cs.length + 2)) acc cs

/-- The full path-plus-operator search: `(\$\w+(?:/SEG+)*)OP`, leftmost
start, `\w+` maximal (deterministic here since no operator can begin with
a word character). -/
def searchPathOp (op : List Char → Option α) (segOk : Char → Bool) :
    List Char → Option (List Char × α)
  | [] => none
  | '$' :: rest =>
    (let w := rest.takeWhile wordChar
     if w.isEmpty then none
     else pathSegsTry op segOk ('$' :: w) (rest.drop w.length)).orElse
    (fun _ => searchPathOp op segOk rest)
  | _ :: rest => searchPathOp op segOk rest

/-- `[^/\s]` — segment characters for the comparison-shaped conditions. -/
def segNoWs (c : Char) : Bool := !(c = '/') && !wsChar c

/-- `[^/\s,]` — segment characters inside the function-shaped conditions. -/
def segNoWsComma (c : Char) : Bool := segNoWs c && !(c = ',')

/-! ## Value-side pattern pieces -/

/-- `(.+)` anchored nowhere and without `re.DOTALL` starting at `r.drop i`:
requires a first non-newline character, captures up to the next newline. -/
def dpAt (r : List Char) (i : Nat) : Option (List Char) :=
  match r.drop i with
  | [] => none
  | c :: rest => if c = '\n' then none else some (c :: rest.takeWhile (fun x => !(x = '\n')))

/-- `\s*(.+)`: greedy whitespace, backtracking so `(.+)` gets a
non-newline first character; `k` is the whitespace-run length to start
from. -/
def dotPlusFrom (r : List Char) : Nat → Option (List Char)
  | 0 => dpAt r 0
  | k + 1 =>
    match dpAt r (k + 1) with
    | some v => some v
    | none => dotPlusFrom r k

/-- `\s*(.+)` applied at `r`. -/
def dotPlusAfterWs (r : List Char) : Option (List Char) :=
  dotPlusFrom r (r.takeWhile wsChar).length

/-- `\s+(.+)`: like `dotPlusAfterWs` but at least one whitespace character
must remain consumed by `\s+`. -/
def dotPlusFromGe1 (r : List Char) : Nat → Option (List Char)
  | 0 => none
  | k + 1 =>
    match dpAt r (k + 1) with
    | some v => some v
    | none => dotPlusFromGe1 r k

def dotPlusAfterWs1 (r : List Char) : Option (List Char) :=
  dotPlusFromGe1 r (r.takeWhile wsChar).length

/-! ## Operator patterns of the condition catalogue -/

/-- `\s*=\s*(.+)` -/
def opEqSym (r : List Char) : Option (List Char) :=
  match r.dropWhile wsChar with
  | '=' :: r2 => dotPlusAfterWs r2
  | _ => none

/-- `\s*!=\s*(.+)` -/
def opNeSym (r : List Char) : Option (List Char) :=
  match r.dropWhile wsChar with
  | '!' :: '=' :: r2 => dotPlusAfterWs r2
  | _ => none

/-- `\s*>\s*(.+)` -/
def opGtSym (r : List Char) : Option (List Char) :=
  match r.dropWhile wsChar with
  | '>' :: r2 => dotPlusAfterWs r2
  | _ => none

/-- `\s*>=\s*(.+)` -/
def opGteSym (r : List Char) : Option (List Char) :=
  match r.dropWhile wsChar with
  | '>' :: '=' :: r2 => dotPlusAfterWs r2
  | _ => none

/-- `\s*<\s*(.+)` -/
def opLtSym (r : List Char) : Option (List Char) :=
  match r.dropWhile wsChar with
  | '<' :: r2 => dotPlusAfterWs r2
  | _ => none

/-- `\s*<=\s*(.+)` -/
def opLteSym (r : List Char) : Option (List Char) :=
  match r.dropWhile wsChar with
  | '<' :: '=' :: r2 => dotPlusAfterWs r2
  | _ => none

/-- `\s+KW\s+(.+)` for the keyword comparators (case-sensitive: these
regexes carry no flags in the source). -/
def opKw (kw : List Char) (r : List Char) : Option (List Char) :=
  match ws1 r with
  | none => none
  | some r1 =>
    match matchLit kw r1 with
    | none => none
    | some r2 => dotPlusAfterWs1 r2

/-- `\s*\)` — the operator side of `exists(...)`. -/
def opCloseParen (r : List Char) : Option Unit :=
  match r.dropWhile wsChar with
  | ')' :: _ => some ()
  | _ => none

/-- `\s*\)\s*\)` — the operator side of `not(exists(...))`. -/
def opCloseParen2 (r : List Char) : Option Unit :=
  match r.dropWhile wsChar with
  | ')' :: r2 =>
    match r2.dropWhile wsChar with
    | ')' :: _ => some ()
    | _ => none
  | _ => none

/-- `(.+?)\s*\)`: lazy nonempty capture (no newline, flagless pattern),
stopping at the first position followed by optional whitespace and a
closing parenthesis. -/
def lazyValGo (accRev : List Char) (rest : List Char) : Option (List Char) :=
  if (match rest.dropWhile wsChar with
      | ')' :: _ => true
      | _ => false) then
    some accRev.reverse
  else
    match rest with
    | [] => none
    | c :: rest' => if c = '\n' then none else lazyValGo (c :: accRev) rest'

def lazyValScan (t : List Char) : Option (List Char) :=
  match t with
  | [] => none
  | c :: rest => if c = '\n' then none else lazyValGo [c] rest

/-- Start positions for `\s*(.+?)\s*\)` tried greedily (maximal leading
whitespace first). -/
def commaLazyStarts (r2 : List Char) : Nat → Option (List Char)
  | 0 => lazyValScan r2
  | k + 1 =>
    match lazyValScan (r2.drop (k + 1)) with
    | some v => some v
    | none => commaLazyStarts r2 k

/-- `\s*,\s*(.+?)\s*\)` — the argument separator of `contains`,
`starts-with`, `ends-with`. -/
def opCommaLazy (r : List Char) : Option (List Char) :=
  match r.dropWhile wsChar with
  | ',' :: r2 => commaLazyStarts r2 (r2.takeWhile wsChar).length
  | _ => none

/-! ## The condition-shape catalogue (`_parse_single_condition`,
conversion.py lines 405-529)

`condMatch` runs the fixed, ordered cascade of `re.search` attempts of the
source and reports which shape fired, with the captured path and raw value
text.  The function-shaped conditions capture no comparison value; for
`exists`/`not(exists(...))` the value component is unused. -/

inductive CondShape where
  | eqS | neS | gtS | gteS | ltS | lteS
  | containsS | startsWithS | endsWithS | existsS | notExistsS
deriving Repr, DecidableEq

/-- `contains\s*\(\s*PATH OP` style head: literal name, `\s*\(\s*`, then
the path group with the given segment class and operator side. -/
def funcCondAt (name : List Char) (segOk : Char → Bool)
    (op : List Char → Option α) (cs : List Char) : Option (List Char × α) :=
  match matchLit name cs with
  | none => none
  | some r1 =>
    match r1.dropWhile wsChar with
    | '(' :: r2 =>
      match r2.dropWhile wsChar with
      | '$' :: rest =>
        let w := rest.takeWhile wordChar
        if w.isEmpty then none
        else pathSegsTry op segOk ('$' :: w) (rest.drop w.length)
      | _ => none
    | _ => none

/-- `not\s*\(\s*exists\s*\(\s*PATH\s*\)\s*\)`. -/
def notExistsAt (cs : List Char) : Option (List Char × Unit) :=
  match matchLit "not".data cs with
  | none => none
  | some r1 =>
    match r1.dropWhile wsChar with
    | '(' :: r2 => funcCondAt "exists".data segNoWs opCloseParen2 (r2.dropWhile wsChar)
    | _ => none

def condMatch (cs : List Char) : Option (CondShape × List Char × List Char) :=
  match searchPathOp opEqSym segNoWs cs with
  | some (p, v) => some (.eqS, p, v)
  | none =>
  match searchPathOp (opKw "eq".data) segNoWs cs with
  | some (p, v) => some (.eqS, p, v)
  | none =>
  match searchPathOp opNeSym segNoWs cs with
  | some (p, v) => some (.neS, p, v)
  | none =>
  match searchPathOp (opKw "ne".data) segNoWs cs with
  | some (p, v) => some (.neS, p, v)
  | none =>
  match searchPathOp opGtSym segNoWs cs with
  | some (p, v) => some (.gtS, p, v)
  | none =>
  match searchPathOp (opKw "gt".data) segNoWs cs with
  | some (p, v) => some (.gtS, p, v)
  | none =>
  match searchPathOp opGteSym segNoWs cs with
  | some (p, v) => some (.gteS, p, v)
  | none =>
  match searchPathOp (opKw "ge".data) segNoWs cs with
  | some (p, v) => some (.gteS, p, v)
  | none =>
  match searchPathOp opLtSym segNoWs cs with
  | some (p, v) => some (.ltS, p, v)
  | none =>
  match searchPathOp (opKw "lt".data) segNoWs cs with
  | some (p, v) => some (.ltS, p, v)
  | none =>
  match searchPathOp opLteSym segNoWs cs with
  | some (p, v) => some (.lteS, p, v)
  | none =>
  match searchPathOp (opKw "le".data) segNoWs cs with
  | some (p, v) => some (.lteS, p, v)
  | none =>
  match scanFor (funcCondAt "contains".data segNoWsComma opCommaLazy) cs with
  | some (p, v) => some (.containsS, p, v)
  | none =>
  match scanFor (funcCondAt "starts-with".data segNoWsComma opCommaLazy) cs with
  | some (p, v) => some (.startsWithS, p, v)
  | none =>
  match scanFor (funcCondAt "ends-with".data segNoWsComma opCommaLazy) cs with
  | some (p, v) => some (.endsWithS, p, v)
  | none =>
  match scanFor (funcCondAt "exists".data segNoWs opCloseParen) cs with
  | some (p, _) => some (.existsS, p, [])
  | none =>
  match scanFor notExistsAt cs with
  | some (p, _) => some (.notExistsS, p, [])
  | none => none

/-- Which catalogue shape fires first on a condition fragment (after the
source's `condition.strip('()')`). -/
def conditionShape (condition : String) : Option CondShape :=
  (condMatch (stripParensL condition.data)).map (fun r => r.1)

inductive ConvError where
  | unsupportedStatement
  | unsupportedInsertSyntax
  | insertJsonError
  | insertContentError
  | updateJsonError
  | unsupportedUpdateSyntax
  | missingCollection
  | badTargetPath
  | deleteJsonError
  | unsupportedDeleteSyntax
  | readJsonError
  | unsupportedReadSyntax
  | unsupportedCondition
  | containsNonString
  | startsWithNonString
  | endsWithNonString
deriving Repr, DecidableEq

/-- Python `re.escape` (3.7+): every character other than an ASCII letter,
digit or underscore is backslash-escaped. -/
def reEscape (s : String) : String :=
  String.mk (s.data.flatMap fun c => if wordChar c then [c] else ['\\', c])

/-- `_parse_single_condition`: strip surrounding parenthesis characters,
then run the shape cascade and build the single filter entry. -/
def parse_single_condition (condition contextVar : String) :
    Except ConvError (String × Doc) :=
  match condMatch (stripParensL condition.data) with
  | some (.eqS, p, v) =>
    .ok (parse_path (String.mk p) contextVar, parse_value (String.mk v))
  | some (.neS, p, v) =>
    .ok (parse_path (String.mk p) contextVar,
         .obj [("$ne", parse_value (String.mk v))])
  | some (.gtS, p, v) =>
    .ok (parse_path (String.mk p) contextVar,
         .obj [("$gt", parse_value (String.mk v))])
  | some (.gteS, p, v) =>
    .ok (parse_path (String.mk p) contextVar,
         .obj [("$gte", parse_value (String.mk v))])
  | some (.ltS, p, v) =>
    .ok (parse_path (String.mk p) contextVar,
         .obj [("$lt", parse_value (String.mk v))])
  | some (.lteS, p, v) =>
    .ok (parse_path (String.mk p) contextVar,
         .obj [("$lte", parse_value (String.mk v))])
  | some (.containsS, p, v) =>
    match parse_value (String.mk v) with
    | .str s =>
      .ok (parse_path (String.mk p) contextVar,
           .obj [("$regex", .str s), ("$options", .str "i")])
    | _ => .error .containsNonString
  | some (.startsWithS, p, v) =>
    match parse_value (String.mk v) with
    | .str s =>
      .ok (parse_path (String.mk p) contextVar,
           .obj [("$regex", .str ("^" ++ reEscape s)), ("$options", .str "i")])
    | _ => .error .startsWithNonString
  | some (.endsWithS, p, v) =>
    match parse_value (String.mk v) with
    | .str s =>
      .ok (parse_path (String.mk p) contextVar,
           .obj [("$regex", .str (reEscape s ++ "$")), ("$options", .str "i")])
    | _ => .error .endsWithNonString
  | some (.existsS, p, _) =>
    .ok (parse_path (String.mk p) contextVar, .obj [("$exists", .bool true)])
  | some (.notExistsS, p, _) =>
    .ok (parse_path (String.mk p) contextVar, .obj [("$exists", .bool false)])
  | none => .error .unsupportedCondition

/-! ## Predicate Engine: fragment splitting and merging

`_parse_where_clause` is called from the Read, Update and Delete parsers
but its definition is not present in the repository source. -/

theorem dropWhile_len_le (p : α → Bool) (l : List α) :
    (l.dropWhile p).length ≤ l.length := by
  induction l with
  | nil => simp
  | cons a l ih =>
    simp only [List.dropWhile_cons]
    cases p a <;> simp <;> omega

/-- The explicit conjunction marker `\s+and\s+` at the head of a list. -/
def andMarker (cs : List Char) : Option (List Char) :=
  match ws1 cs with
  | none => none
  | some r1 =>
    match matchLit "and".data r1 with
    | none => none
    | some r2 => ws1 r2

theorem ws1_len_lt {cs r : List Char} (h : ws1 cs = some r) :
    r.length < cs.length := by
  unfold ws1 at h
  by_cases hc : (cs.dropWhile wsChar).length = cs.length
  · simp [hc] at h
  · simp [hc] at h
    have := dropWhile_len_le wsChar cs
    subst h
    omega

theorem matchLit_len_le : ∀ (lit cs r : List Char), matchLit lit cs = some r →
    r.length ≤ cs.length
  | [], cs, r, h => by simp [matchLit] at h; subst h; exact Nat.le_refl _
  | _ :: _, [], r, h => by simp [matchLit] at h
  | l :: ls, c :: cs, r, h => by
    simp only [matchLit] at h
    by_cases hc : c = l
    · simp [hc] at h
      have := matchLit_len_le ls cs r h
      simp
      omega
    · simp [hc] at h

theorem andMarker_len_lt {cs r : List Char} (h : andMarker cs = some r) :
    r.length < cs.length := by
  unfold andMarker at h
  cases h1 : ws1 cs with
  | none => simp [h1] at h
  | some r1 =>
    simp only [h1] at h
    cases h2 : matchLit "and".data r1 with
    | none => simp [h2] at h
    | some r2 =>
      simp only [h2] at h
      have := ws1_len_lt h1
      have := matchLit_len_le _ _ _ h2
      have := ws1_len_lt h
      omega

/-- Split a condition clause on `\s+and\s+` markers (leftmost,
non-overlapping); fuel-structured, every step consumes at least one
character. -/
def splitOnAndGoF (fuel : Nat) (accRev : List Char) (cs : List Char) :
    List (List Char) :=
  match fuel with
  | 0 => [accRev.reverse ++ cs]
  | fuel + 1 =>
    match andMarker cs with
    | some rest => accRev.reverse :: splitOnAndGoF fuel [] rest
    | none =>
      match cs with
      | [] => [accRev.reverse]
      | c :: r => splitOnAndGoF fuel (c :: accRev) r

def splitOnAndGo (accRev : List Char) (cs : List Char) : List (List Char) :=
  splitOnAndGoF (cs.length + 1) accRev cs

/-- Modelled from the spec: `_parse_where_clause` is invoked by the
hierarchical Read, Update and Delete parsers but is missing from the
source.  Per spec §4.3 it splits the clause on explicit conjunction
markers into fragments (flat AND only), parses each fragment with
`_parse_single_condition`, and merges all entries into one filter map,
later fragments overwriting earlier ones on field-path collision. -/
def parse_where_clause (whereClause contextVar : String) :
    Except ConvError (List (String × Doc)) :=
  (splitOnAndGo [] whereClause.data).foldlM
    (fun acc frag =>
      (parse_single_condition (String.mk frag) contextVar).map
        (fun e => setKey acc e.1 e.2))
    []

/-! ## Structured-literal handling: trailing-comma cleanup and `json.loads`

`json.loads` (and, in the xdmp dialect, `eval` applied to a structured
literal) is modelled by a strict parser for the literal fragment the
converter exercises: objects with double-quoted escape-free string keys,
string values and nonnegative integer values, arbitrarily nested.  On
this fragment `json.loads` and Python `eval` agree. -/

/-- One pass of `re.sub(r',\s*C', 'C', s)` for a closing character `C`:
leftmost, non-overlapping, scanning resumes after each replacement. -/
def subCommaCloseF (close : Char) (fuel : Nat) (cs : List Char) : List Char :=
  match fuel with
  | 0 => cs
  | fuel + 1 =>
    match cs with
    | [] => []
    | c :: rest =>
      if c = ',' then
        match rest.dropWhile wsChar with
        | c2 :: tail =>
          if c2 = close then close :: subCommaCloseF close fuel tail
          else ',' :: subCommaCloseF close fuel rest
        | [] => ',' :: subCommaCloseF close fuel rest
      else c :: subCommaCloseF close fuel rest

def subCommaClose (close : Char) (cs : List Char) : List Char :=
  subCommaCloseF close (cs.length + 1) cs

/-- `re.sub(r',\s*}', '}', s)` — the cleanup applied to shorthand
update/delete/read literals. -/
def cleanupBrace (cs : List Char) : List Char :=
  subCommaClose '\x7d' cs

/-- The insert-path cleanup: `,\s*}` then `,\s*]`. -/
def cleanupBoth (cs : List Char) : List Char :=
  subCommaClose ']' (subCommaClose '\x7d' cs)

mutual

/-- Structured-literal value parser (fragment model of `json.loads`).
Returns the parsed value and the unconsumed remainder. -/
def parseValF : Nat → List Char → Option (Doc × List Char)
  | 0, _ => none
  | fuel + 1, cs =>
    match cs.dropWhile wsChar with
    | '"' :: rest =>
      let content := rest.takeWhile (fun c => !(c = '"'))
      if content.contains '\\' || content.any (fun c => c.toNat < 32) then none
      else
        match rest.drop content.length with
        | '"' :: r2 => some (.str (String.mk content), r2)
        | _ => none
    | '\x7b' :: rest =>
      (parseMembersF fuel rest).map
        (fun m => (.obj (m.1.foldl (fun acc p => setKey acc p.1 p.2) []), m.2))
    | c :: rest =>
      if digitChar c then
        let run := (c :: rest).takeWhile digitChar
        if c = '0' && run.length > 1 then none
        else some (.intLit (String.mk (normDigits run)), (c :: rest).drop run.length)
      else none
    | [] => none

/-- Object members after the opening brace; duplicate keys collapse to the
last occurrence, as in a Python dict. -/
def parseMembersF : Nat → List Char → Option (List (String × Doc) × List Char)
  | 0, _ => none
  | fuel + 1, cs =>
    match cs.dropWhile wsChar with
    | '\x7d' :: rest => some ([], rest)
    | '"' :: rest =>
      let key := rest.takeWhile (fun c => !(c = '"'))
      if key.contains '\\' || key.any (fun c => c.toNat < 32) then none
      else
        match rest.drop key.length with
        | '"' :: r2 =>
          match r2.dropWhile wsChar with
          | ':' :: r3 =>
            match parseValF fuel r3 with
            | some (v, r4) =>
              match r4.dropWhile wsChar with
              | ',' :: r5 =>
                (parseMembersF fuel r5).bind
                  (fun m =>
                    if m.1.isEmpty then none
                    else some ((String.mk key, v) :: m.1, m.2))
              | '\x7d' :: r5 => some ([(String.mk key, v)], r5)
              | _ => none
            | none => none
          | _ => none
        | _ => none
    | _ => none

end

/-- `json.loads` on a full string: parse one value, require only
whitespace to remain. -/
def parseLit (s : String) : Option Doc :=
  match parseValF (s.data.length + 2) s.data with
  | some (d, rest) => if rest.dropWhile wsChar = [] then some d else none
  | none => none

/-! ## Canonical operation descriptors

`MongoOp` mirrors the result dicts of `XQueryToMongoCRUDConverter`; absent
keys are `none`. -/

structure MongoOp where
  collection : String
  operation : String
  document : Option Doc := none
  filter : Option Doc := none
  update : Option Doc := none
  sort : Option (List (String × Int)) := none
  projection : Option (List (String × Nat)) := none
deriving Repr

/-! ## Statement-level regex searchers -/

def quoteChar (c : Char) : Bool := c = '"' || c = '\''

/-- `(.*)\)` with `re.DOTALL`: greedy capture backtracking to the last
closing parenthesis. -/
def splitLastParen (cs : List Char) : Option (List Char) :=
  match cs.reverse.dropWhile (fun c => !(c = ')')) with
  | ')' :: revContent => some revContent.reverse
  | _ => none

/-- `["']([^"']+)["']` — a quoted nonempty name (closing quote need not
match the opening one, exactly as in the source pattern). -/
def quotedName (cs : List Char) : Option (String × List Char) :=
  match cs with
  | q :: r =>
    if quoteChar q then
      let name := r.takeWhile (fun c => !quoteChar c)
      if name.isEmpty then none
      else
        match r.drop name.length with
        | q2 :: r2 => if quoteChar q2 then some (String.mk name, r2) else none
        | [] => none
    else none
  | [] => none

/-- `db\.collection\(["']([^"']+)["']\)\.METH` at one position
(`re.IGNORECASE`). -/
def dbCallAt (meth : List Char) (cs : List Char) : Option (String × List Char) :=
  (matchLitCI "db.collection(".data cs).bind fun r1 =>
  (quotedName r1).bind fun nr =>
  (matchLitCI (')' :: '.' :: meth) nr.2).map fun r3 => (nr.1, r3)

/-- `db.collection("C").insert((.*))` — greedy document text up to the
last closing parenthesis. -/
def searchInsertShorthand (cs : List Char) : Option (String × List Char) :=
  scanFor (fun t =>
    (dbCallAt "insert".data t).bind fun nr =>
    match nr.2 with
    | '(' :: r2 => (splitLastParen r2).map fun doc => (nr.1, doc)
    | _ => none) cs

/-- `db.collection("C").remove((.*))`. -/
def searchRemoveShorthand (cs : List Char) : Option (String × List Char) :=
  scanFor (fun t =>
    (dbCallAt "remove".data t).bind fun nr =>
    match nr.2 with
    | '(' :: r2 => (splitLastParen r2).map fun q => (nr.1, q)
    | _ => none) cs

/-- `db.collection("C").find((.*?))` — lazy capture up to the first
closing parenthesis. -/
def searchFindShorthand (cs : List Char) : Option (String × List Char) :=
  scanFor (fun t =>
    (dbCallAt "find".data t).bind fun nr =>
    match nr.2 with
    | '(' :: r2 =>
      let content := r2.takeWhile (fun c => !(c = ')'))
      match r2.drop content.length with
      | ')' :: _ => some (nr.1, content)
      | _ => none
    | _ => none) cs

/-- The two update arguments `(.*?),\s*(.*)\)`: the lazy first group stops
at the first comma after which the remainder still holds a closing
parenthesis. -/
def updateArgsScan (accRev : List Char) (cs : List Char) : Option (List Char × List Char) :=
  match cs with
  | [] => none
  | ',' :: rest =>
    (match splitLastParen (rest.dropWhile wsChar) with
     | some g2 => some (accRev.reverse, g2)
     | none => updateArgsScan (',' :: accRev) rest)
  | c :: rest => updateArgsScan (c :: accRev) rest

def searchUpdateShorthand (cs : List Char) : Option (String × List Char × List Char) :=
  scanFor (fun t =>
    (dbCallAt "update".data t).bind fun nr =>
    match nr.2 with
    | '(' :: r2 => (updateArgsScan [] r2).map fun g => (nr.1, g.1, g.2)
    | _ => none) cs

/-- Lazy `(.*?)STOP` with `re.DOTALL`: minimal capture whose remainder
satisfies `stop`. -/
def lazyScanDotall (stop : List Char → Option α) (accRev : List Char)
    (cs : List Char) : Option (List Char × α) :=
  match stop cs with
  | some a => some (accRev.reverse, a)
  | none =>
    match cs with
    | [] => none
    | c :: rest => lazyScanDotall stop (c :: accRev) rest

/-- `\s+(.*?)STOP`: greedy whitespace run, lazy group, backtracking the
run when no stop position is reachable from its end. -/
def wsDescendLazy (stop : List Char → Option α) (r : List Char) :
    Nat → Option (List Char × α)
  | 0 => none
  | k + 1 =>
    match lazyScanDotall stop [] (r.drop (k + 1)) with
    | some x => some x
    | none => wsDescendLazy stop r k

def afterWs1Lazy (stop : List Char → Option α) (r : List Char) :
    Option (List Char × α) :=
  wsDescendLazy stop r (r.takeWhile wsChar).length

/-- `\s+into\s+collection\(["'](NAME)["']\)` — the stop pattern of the
hierarchical insert form; yields the collection name. -/
def insertNodeStop (t : List Char) : Option String :=
  (ws1 t).bind fun r1 =>
  (matchLitCI "into".data r1).bind fun r2 =>
  (ws1 r2).bind fun r3 =>
  (matchLitCI "collection(".data r3).bind fun r4 =>
  (quotedName r4).bind fun nr =>
  match nr.2 with
  | ')' :: _ => some nr.1
  | _ => none

/-- `insert\s+node\s+(.*?)\s+into\s+collection\(["'](NAME)["']\)`. -/
def searchInsertNode (cs : List Char) : Option (List Char × String) :=
  scanFor (fun t =>
    (matchLitCI "insert".data t).bind fun r1 =>
    (ws1 r1).bind fun r2 =>
    (matchLitCI "node".data r2).bind fun r3 =>
    afterWs1Lazy insertNodeStop r3) cs

/-- `for\s+\$(\w+)\s+in\s+collection\(["'](NAME)["']\)(.*)` — returns the
iteration variable, the collection, and the rest of the statement. -/
def searchForIn (cs : List Char) : Option (String × String × List Char) :=
  scanFor (fun t =>
    (matchLitCI "for".data t).bind fun r1 =>
    (ws1 r1).bind fun r2 =>
    match r2 with
    | '$' :: r3 =>
      let w := r3.takeWhile wordChar
      if w.isEmpty then none
      else
        (ws1 (r3.drop w.length)).bind fun r4 =>
        (matchLitCI "in".data r4).bind fun r5 =>
        (ws1 r5).bind fun r6 =>
        (matchLitCI "collection(".data r6).bind fun r7 =>
        (quotedName r7).bind fun nr =>
        match nr.2 with
        | ')' :: r9 => some (String.mk w, nr.1, r9)
        | _ => none
    | _ => none) cs

def orderByHead (t : List Char) : Option Unit :=
  (matchLitCI "order".data t).bind fun r1 =>
  (ws1 r1).bind fun r2 =>
  (matchLitCI "by".data r2).map fun _ => ()

/-- `(?:order\s+by|\Z)`. -/
def whereReadStop (t : List Char) : Option Unit :=
  match orderByHead t with
  | some _ => some ()
  | none => if t.isEmpty then some () else none

def inCollectionHeadCI (t : List Char) : Option Unit :=
  (matchLitCI "in".data t).bind fun r1 =>
  (ws1 r1).bind fun r2 =>
  (matchLitCI "collection".data r2).map fun _ => ()

/-- `(?:in\s+collection|\Z)`. -/
def whereUDStop (t : List Char) : Option Unit :=
  match inCollectionHeadCI t with
  | some _ => some ()
  | none => if t.isEmpty then some () else none

/-- `where\s+(.*?)STOP`. -/
def tryWhereAt (stop : List Char → Option Unit) (cs : List Char) :
    Option (List Char) :=
  (matchLitCI "where".data cs).bind fun r1 =>
  (afterWs1Lazy stop r1).map fun g => g.1

def searchWhereRead (cs : List Char) : Option (List Char) :=
  scanFor (tryWhereAt whereReadStop) cs

def searchWhereUD (cs : List Char) : Option (List Char) :=
  scanFor (tryWhereAt whereUDStop) cs

/-- `(?:return|\Z)`. -/
def returnStop (t : List Char) : Option Unit :=
  match matchLitCI "return".data t with
  | some _ => some ()
  | none => if t.isEmpty then some () else none

/-- `order\s+by\s+(.*?)(?:return|\Z)`. -/
def searchOrderBy (cs : List Char) : Option (List Char) :=
  scanFor (fun t =>
    (matchLitCI "order".data t).bind fun r1 =>
    (ws1 r1).bind fun r2 =>
    (matchLitCI "by".data r2).bind fun r3 =>
    (afterWs1Lazy returnStop r3).map fun g => g.1) cs

/-- `return\s+(.*)` with `re.DOTALL`: everything after the keyword. -/
def searchReturn (cs : List Char) : Option (List Char) :=
  scanFor (fun t =>
    (matchLitCI "return".data t).bind fun r1 => ws1 r1) cs

/-- `in\s+collection\(["']([^"']+)["']\)` — case-sensitive: this search
carries no flags in the source. -/
def searchInCollection (cs : List Char) : Option String :=
  scanFor (fun t =>
    (matchLit "in".data t).bind fun r1 =>
    (ws1 r1).bind fun r2 =>
    (matchLit "collection(".data r2).bind fun r3 =>
    (quotedName r3).bind fun nr =>
    match nr.2 with
    | ')' :: _ => some nr.1
    | _ => none) cs

/-- `\$(\w+)(?:/([^/]+))?` — the target-path splitter of the hierarchical
update and delete forms (only the first slash-separated segment is
captured). -/
def searchPathParts (cs : List Char) : Option (List Char × Option (List Char)) :=
  scanFor (fun t =>
    match t with
    | '$' :: r =>
      let w := r.takeWhile wordChar
      if w.isEmpty then none
      else
        match r.drop w.length with
        | '/' :: r2 =>
          let seg := r2.takeWhile (fun c => !(c = '/'))
          if seg.isEmpty then some (w, none) else some (w, some seg)
        | _ => some (w, none)
    | _ => none) cs

/-- `(?:where|in\s+collection)` — note: no end-of-string alternative. -/
def uvStop (t : List Char) : Option Unit :=
  match matchLitCI "where".data t with
  | some _ => some ()
  | none => inCollectionHeadCI t

/-- `\s+with\s+(.*?)(?:where|in\s+collection)` — the stop pattern of the
replace/update-value forms; yields the replacement group. -/
def withThenGroup (t : List Char) : Option (List Char) :=
  (ws1 t).bind fun r1 =>
  (matchLitCI "with".data r1).bind fun r2 =>
  (afterWs1Lazy uvStop r2).map fun g => g.1

/-- `replace\s+node\s+(.*?)\s+with\s+(.*?)(?:where|in\s+collection)`. -/
def searchReplaceNode (cs : List Char) : Option (List Char × List Char) :=
  scanFor (fun t =>
    (matchLitCI "replace".data t).bind fun r1 =>
    (ws1 r1).bind fun r2 =>
    (matchLitCI "node".data r2).bind fun r3 =>
    afterWs1Lazy withThenGroup r3) cs

/-- `update\s+value\s+(.*?)\s+with\s+(.*?)(?:where|in\s+collection)`. -/
def searchUpdateValue (cs : List Char) : Option (List Char × List Char) :=
  scanFor (fun t =>
    (matchLitCI "update".data t).bind fun r1 =>
    (ws1 r1).bind fun r2 =>
    (matchLitCI "value".data r2).bind fun r3 =>
    afterWs1Lazy withThenGroup r3) cs

/-- `delete\s+node\s+(.*?)(?:where|in\s+collection)`. -/
def searchDeleteNode (cs : List Char) : Option (List Char) :=
  scanFor (fun t =>
    (matchLitCI "delete".data t).bind fun r1 =>
    (ws1 r1).bind fun r2 =>
    (matchLitCI "node".data r2).bind fun r3 =>
    (afterWs1Lazy uvStop r3).map fun g => g.1) cs

/-! ## Dialect Router cues (`parse_xquery`, conversion.py lines 11-34) -/

def cueLitWsLit (a b : List Char) (cs : List Char) : Bool :=
  (scanFor (fun t =>
    (matchLitCI a t).bind fun r1 =>
    (ws1 r1).bind fun r2 =>
    matchLitCI b r2) cs).isSome

def cueDbMethod (meth : List Char) (cs : List Char) : Bool :=
  (scanFor (dbCallAt meth) cs).isSome

/-- `for\s+\$\w+\s+in\s+collection`. -/
def cueForInCollection (cs : List Char) : Bool :=
  (scanFor (fun t =>
    (matchLitCI "for".data t).bind fun r1 =>
    (ws1 r1).bind fun r2 =>
    match r2 with
    | '$' :: r3 =>
      let w := r3.takeWhile wordChar
      if w.isEmpty then none
      else
        (ws1 (r3.drop w.length)).bind fun r4 =>
        (matchLitCI "in".data r4).bind fun r5 =>
        (ws1 r5).bind fun r6 =>
        matchLitCI "collection".data r6
    | _ => none) cs).isSome

def insertCue (s : String) : Bool :=
  cueLitWsLit "insert".data "node".data s.data || cueDbMethod "insert".data s.data

def updateCue (s : String) : Bool :=
  cueLitWsLit "replace".data "node".data s.data
    || cueLitWsLit "update".data "value".data s.data
    || cueDbMethod "update".data s.data

def deleteCue (s : String) : Bool :=
  cueLitWsLit "delete".data "node".data s.data || cueDbMethod "remove".data s.data

def readCue (s : String) : Bool :=
  cueForInCollection s.data || cueDbMethod "find".data s.data

/-! ## Markup model (`_xml_to_json` and the `lxml` parse step)

`etree.fromstring` is an external library; it is modelled by a plain
recursive-descent parser for ordinary element markup (tags, double-quoted
attributes, nested children, text) — the fragment the converter
exercises.  `_xml_to_json` itself (conversion.py lines 98-127) is
embedded faithfully. -/

inductive XmlElem where
  | mk (tag : String) (attrs : List (String × String))
       (children : List XmlElem) (text : String)

def XmlElem.tag : XmlElem → String
  | .mk t _ _ _ => t

def xmlNameChar (c : Char) : Bool :=
  wordChar c || c = '-' || c = ':' || c = '.'

mutual

def parseXmlElemF : Nat → List Char → Option (XmlElem × List Char)
  | 0, _ => none
  | fuel + 1, cs =>
    match cs.dropWhile wsChar with
    | '<' :: r1 =>
      let tag := r1.takeWhile xmlNameChar
      if tag.isEmpty then none
      else parseXmlAttrsF fuel (String.mk tag) [] (r1.drop tag.length)
    | _ => none

def parseXmlAttrsF : Nat → String → List (String × String) → List Char →
    Option (XmlElem × List Char)
  | 0, _, _, _ => none
  | fuel + 1, tag, attrs, cs =>
    match cs.dropWhile wsChar with
    | '/' :: '>' :: rest => some (.mk tag attrs.reverse [] "", rest)
    | '>' :: rest =>
      let text := rest.takeWhile (fun c => !(c = '<'))
      parseXmlChildrenF fuel tag attrs.reverse [] (String.mk text)
        (rest.drop text.length)
    | c :: r1 =>
      if xmlNameChar c then
        let name := (c :: r1).takeWhile xmlNameChar
        match (c :: r1).drop name.length with
        | '=' :: '"' :: r2 =>
          let v := r2.takeWhile (fun x => !(x = '"'))
          match r2.drop v.length with
          | '"' :: r3 =>
            parseXmlAttrsF fuel tag ((String.mk name, String.mk v) :: attrs) r3
          | _ => none
        | _ => none
      else none
    | [] => none

def parseXmlChildrenF : Nat → String → List (String × String) →
    List XmlElem → String → List Char → Option (XmlElem × List Char)
  | 0, _, _, _, _, _ => none
  | fuel + 1, tag, attrs, childrenRev, text, cs =>
    match cs with
    | '<' :: '/' :: r1 =>
      match matchLit tag.data r1 with
      | some r2 =>
        (match r2.dropWhile wsChar with
         | '>' :: rest => some (.mk tag attrs childrenRev.reverse text, rest)
         | _ => none)
      | none => none
    | '<' :: _ =>
      match parseXmlElemF fuel cs with
      | some (child, rest) =>
        let skip := rest.takeWhile (fun c => !(c = '<'))
        parseXmlChildrenF fuel tag attrs (child :: childrenRev) text
          (rest.drop skip.length)
      | none => none
    | _ => none

end

def parseXmlFrag (s : String) : Option XmlElem :=
  match parseXmlElemF (s.data.length + 2) s.data with
  | some (el, rest) => if rest.dropWhile wsChar = [] then some el else none
  | none => none

/-- The XML-declaration pattern `<\?xml[^>]+\?>` at the head of a list:
some with the remainder when it matches. -/
def xmlDeclAt (cs : List Char) : Option (List Char) :=
  match matchLit "<?xml".data cs with
  | none => none
  | some r1 =>
    let body := r1.takeWhile (fun c => !(c = '>'))
    match r1.drop body.length with
    | '>' :: r2 =>
      if 2 ≤ body.length && body.getLast? = some '?' then some r2 else none
    | _ => none

theorem xmlDeclAt_len_lt {cs r : List Char} (h : xmlDeclAt cs = some r) :
    r.length < cs.length := by
  unfold xmlDeclAt at h
  cases h1 : matchLit "<?xml".data cs with
  | none => simp [h1] at h
  | some r1 =>
    simp only [h1] at h
    have hle : r1.length ≤ cs.length := matchLit_len_le _ _ _ h1
    cases h2 : (r1.drop (r1.takeWhile (fun c => !(c = '>'))).length) with
    | nil => simp [h2] at h
    | cons c r2 =>
      simp only [h2] at h
      by_cases hc : c = '>'
      · subst hc
        simp only [if_pos rfl] at h
        split_ifs at h
        cases h
        have h3 : (r1.drop (r1.takeWhile (fun c => !(c = '>'))).length).length
            ≤ r1.length := by simp
        rw [h2] at h3
        simp at h3
        omega
      · simp [hc] at h

/-- `re.sub(r'<\?xml[^>]+\?>', '', content)`: drop XML declarations
(leftmost, non-overlapping). -/
def subXmlDecl (cs : List Char) : List Char :=
  match h : xmlDeclAt cs with
  | some r2 => subXmlDecl r2
  | none =>
    match cs with
    | [] => []
    | c :: rest => c :: subXmlDecl rest
termination_by cs.length
decreasing_by
  · exact xmlDeclAt_len_lt h
  · simp

/-- `_xml_to_json`: attributes become `@`-prefixed keys, repeated child
tags promote to arrays, bare text collapses to a scalar. -/
def xml_to_json : XmlElem → Doc
  | .mk _ attrs children text =>
    let withAttrs : List (String × Doc) :=
      attrs.foldl (fun acc kv => setKey acc ("@" ++ kv.1) (.str kv.2)) []
    let withChildren : List (String × Doc) :=
      children.attach.foldl
        (fun acc c =>
          let childDoc := xml_to_json c.1
          let tag := c.1.tag
          match lookupKey acc tag with
          | some (Doc.arr items) => setKey acc tag (.arr (items ++ [childDoc]))
          | some existing => setKey acc tag (.arr [existing, childDoc])
          | none => setKey acc tag childDoc)
        withAttrs
    let t := pyStrip text
    if !t.isEmpty then
      if !withChildren.isEmpty then .obj (setKey withChildren "#text" (.str t))
      else .str t
    else .obj withChildren
termination_by el => sizeOf el
decreasing_by
  have h1 := List.sizeOf_lt_of_mem c.2
  simp only [XmlElem.mk.sizeOf_spec]
  omega

/-! ## Statement Parsers -/

/-- `_parse_insert` (conversion.py lines 36-96). -/
def parse_insert (s : String) : Except ConvError MongoOp :=
  match searchInsertShorthand s.data with
  | some (coll, docTxt) =>
    let dj := cleanupBoth (pyStripL docTxt)
    match parseLit (String.mk dj) with
    | some d =>
      .ok { collection := coll, operation := "insertOne", document := some d }
    | none => .error .insertJsonError
  | none =>
  match searchInsertNode s.data with
  | some (content, coll) =>
    let xml := pyStripL content
    if xml.head? = some '\x7b' && xml.getLast? = some '\x7d' then
      match parseLit (String.mk xml) with
      | some d =>
        .ok { collection := coll, operation := "insertOne", document := some d }
      | none => .error .insertContentError
    else
      match parseXmlFrag (String.mk (subXmlDecl xml)) with
      | some el =>
        .ok { collection := coll, operation := "insertOne",
              document := some (xml_to_json el) }
      | none => .error .insertContentError
  | none => .error .unsupportedInsertSyntax

/-- The textual update-operator check of `_parse_update`:
`re.search(r'"\$set"|"\$inc"|"\$push"', update_json)`. -/
def hasModifierText (cs : List Char) : Bool :=
  (scanFor (matchLit "\"$set\"".data) cs).isSome
    || (scanFor (matchLit "\"$inc\"".data) cs).isSome
    || (scanFor (matchLit "\"$push\"".data) cs).isSome

/-- The value coercion of the assign-value update form (conversion.py
lines 247-252): double-quoted string, all-digit integer, strict float,
else the raw text. -/
def coerceUpdateValue (cs : List Char) : Doc :=
  if cs.head? = some '"' && cs.getLast? = some '"' then
    .str (String.mk (cs.drop 1).dropLast)
  else if isDigitsL cs then .intLit (String.mk (normDigits cs))
  else
    match floatShape cs with
    | some (ip, fp) =>
      .floatLit (String.mk (normDigits ip)) (String.mk (normFrac fp))
    | none => .str (String.mk cs)

/-- Filter construction shared by the hierarchical forms: `query = {}`
then `if where_clause: query = self._parse_where_clause(...)` where the
extracted clause is stripped and an empty string is falsy. -/
def buildQuery (wc : Option (List Char)) (contextVar : String) :
    Except ConvError Doc :=
  match wc with
  | some w =>
    let w := pyStripL w
    if w.isEmpty then .ok (.obj [])
    else (parse_where_clause (String.mk w) contextVar).map Doc.obj
  | none => .ok (.obj [])

/-- `_parse_update` (conversion.py lines 129-264). -/
def parse_update (s : String) : Except ConvError MongoOp :=
  match searchUpdateShorthand s.data with
  | some (coll, qRaw, uRaw) =>
    let qj := cleanupBrace (pyStripL qRaw)
    let uj := cleanupBrace (pyStripL uRaw)
    match parseLit (String.mk qj) with
    | none => .error .updateJsonError
    | some q =>
      if (pyStripL uj).head? = some '\x7b' && hasModifierText uj then
        match parseLit (String.mk uj) with
        | some u =>
          .ok { collection := coll, operation := "updateMany",
                filter := some q, update := some u }
        | none => .error .updateJsonError
      else
        match parseLit (String.mk uj) with
        | some u =>
          .ok { collection := coll, operation := "updateMany",
                filter := some q, update := some (.obj [("$set", u)]) }
        | none => .error .updateJsonError
  | none =>
  match searchReplaceNode s.data with
  | some (targetRaw, replRaw) =>
    let target := pyStripL targetRaw
    let repl := pyStripL replRaw
    match searchInCollection s.data with
    | none => .error .missingCollection
    | some coll =>
      let wc := searchWhereUD s.data
      match searchPathParts target with
      | none => .error .badTargetPath
      | some (varName, fieldOpt) =>
        (buildQuery wc (String.mk varName)).bind fun query =>
        let updateValue : Doc :=
          if repl.head? = some '\x7b' && repl.getLast? = some '\x7d' then
            match parseLit (String.mk repl) with
            | some d => d
            | none => .str (String.mk repl)
          else .str (String.mk repl)
        let update : Doc :=
          match fieldOpt with
          | some f => .obj [("$set", .obj [(slashToDot (String.mk f), updateValue)])]
          | none => .obj [("$set", updateValue)]
        .ok { collection := coll, operation := "updateMany",
              filter := some query, update := some update }
  | none =>
  match searchUpdateValue s.data with
  | some (targetRaw, valRaw) =>
    let target := pyStripL targetRaw
    let newValue := pyStripL valRaw
    match searchInCollection s.data with
    | none => .error .missingCollection
    | some coll =>
      let wc := searchWhereUD s.data
      match searchPathParts target with
      | none => .error .badTargetPath
      | some (varName, fieldOpt) =>
        (buildQuery wc (String.mk varName)).bind fun query =>
        let v := coerceUpdateValue newValue
        let update : Doc :=
          match fieldOpt with
          | some f => .obj [("$set", .obj [(slashToDot (String.mk f), v)])]
          | none => .obj [("$set", v)]
        .ok { collection := coll, operation := "updateMany",
              filter := some query, update := some update }
  | none => .error .unsupportedUpdateSyntax

/-- `_parse_delete` (conversion.py lines 266-322). -/
def parse_delete (s : String) : Except ConvError MongoOp :=
  match searchRemoveShorthand s.data with
  | some (coll, qRaw) =>
    let qj := cleanupBrace (pyStripL qRaw)
    match parseLit (String.mk qj) with
    | some q =>
      .ok { collection := coll, operation := "deleteMany", filter := some q }
    | none => .error .deleteJsonError
  | none =>
  match searchDeleteNode s.data with
  | some targetRaw =>
    let target := pyStripL targetRaw
    match searchInCollection s.data with
    | none => .error .missingCollection
    | some coll =>
      let wc := searchWhereUD s.data
      match searchPathParts target with
      | none => .error .badTargetPath
      | some (varName, _) =>
        (buildQuery wc (String.mk varName)).map fun query =>
        { collection := coll, operation := "deleteMany", filter := some query }
  | none => .error .unsupportedDeleteSyntax

/-- Python `re.split(r',\s*', s)`: split on a comma plus following
whitespace run. -/
def splitCommaWsF (fuel : Nat) (accRev : List Char) (cs : List Char) :
    List (List Char) :=
  match fuel with
  | 0 => [accRev.reverse ++ cs]
  | fuel + 1 =>
    match cs with
    | [] => [accRev.reverse]
    | ',' :: rest => accRev.reverse :: splitCommaWsF fuel [] (rest.dropWhile wsChar)
    | c :: rest => splitCommaWsF fuel (c :: accRev) rest

def splitCommaWs (accRev : List Char) (cs : List Char) : List (List Char) :=
  splitCommaWsF (cs.length + 1) accRev cs

/-- Case-insensitive suffix test. -/
def endsWithCI (lit : List Char) (cs : List Char) : Bool :=
  decide (lit.length ≤ cs.length)
    && (cs.drop (cs.length - lit.length)).map Char.toLower = lit.map Char.toLower

/-- `re.search(r'MARKER$', part, re.IGNORECASE)` where `$` also matches
before one trailing newline. -/
def endMarker (marker : List Char) (part : List Char) : Bool :=
  let base := if part.getLast? = some '\n' then part.dropLast else part
  endsWithCI marker base

/-- `re.sub(r'\s+MARKER$', '', part, flags=re.IGNORECASE)`. -/
def stripSortMarker (marker : List Char) (part : List Char) : List Char :=
  let tailNl : List Char := if part.getLast? = some '\n' then ['\n'] else []
  let base := if part.getLast? = some '\n' then part.dropLast else part
  if endsWithCI marker base then
    let woMarker := base.take (base.length - marker.length)
    let woWs := (woMarker.reverse.dropWhile wsChar).reverse
    if woWs.length = woMarker.length then part
    else woWs ++ tailNl
  else part

/-- `_parse_order_by` (conversion.py lines 581-601). -/
def parse_order_by (orderByClause contextVar : String) : List (String × Int) :=
  let parts := splitCommaWs [] orderByClause.data
  parts.foldl
    (fun sortSpec part =>
      let desc := endMarker "descending".data part
      let part' :=
        if desc then stripSortMarker "descending".data part
        else stripSortMarker "ascending".data part
      let dir : Int := if desc then -1 else 1
      let field := parse_path (pyStrip (String.mk part')) contextVar
      setKey sortSpec field dir)
    []

/-- `re.findall(field_pattern, return_clause)` for
`\$CONTEXTVAR/([^/\s,]+)` — leftmost non-overlapping matches; scanning
resumes after each full match. -/
def findFieldsGoF (p0 : Char) (ps : List Char) (fuel : Nat) (cs : List Char) :
    List (List Char) :=
  match fuel with
  | 0 => []
  | fuel + 1 =>
    match cs with
    | [] => []
    | c :: rest =>
      match matchLit (p0 :: ps) (c :: rest) with
      | some r1 =>
        let run := r1.takeWhile segNoWsComma
        if run.isEmpty then findFieldsGoF p0 ps fuel rest
        else run :: findFieldsGoF p0 ps fuel (r1.drop run.length)
      | none => findFieldsGoF p0 ps fuel rest

def findFieldsGo (p0 : Char) (ps : List Char) (cs : List Char) : List (List Char) :=
  findFieldsGoF p0 ps (cs.length + 1) cs

/-- The fields explicitly referenced under the context variable in a
return clause. -/
def projectionFields (returnClause contextVar : String) : List String :=
  (findFieldsGo '$' (contextVar.data ++ ['/']) returnClause.data).map String.mk

/-- `_parse_return_clause` (conversion.py lines 603-620). -/
def parse_return_clause (returnClause contextVar : String) : List (String × Nat) :=
  let fields := projectionFields returnClause contextVar
  let projection := fields.foldl (fun m f => setKey m f 1) []
  if !fields.isEmpty && (lookupKey projection "_id").isNone then
    setKey projection "_id" 0
  else projection

/-- `_parse_read` (conversion.py lines 324-403). -/
def parse_read (s : String) : Except ConvError MongoOp :=
  match searchFindShorthand s.data with
  | some (coll, qRaw) =>
    let qj := cleanupBrace (pyStripL qRaw)
    if qj.isEmpty then
      .ok { collection := coll, operation := "find", filter := some (.obj []) }
    else
      match parseLit (String.mk qj) with
      | some q =>
        .ok { collection := coll, operation := "find", filter := some q }
      | none => .error .readJsonError
  | none =>
  match searchForIn s.data with
  | some (varName, coll, rest) =>
    (buildQuery (searchWhereRead rest) varName).map fun query =>
    let sortOpt : Option (List (String × Int)) :=
      (searchOrderBy rest).map
        (fun sc => parse_order_by (pyStrip (String.mk sc)) varName)
    let projOpt : Option (List (String × Nat)) :=
      (searchReturn rest).map
        (fun rc => parse_return_clause (pyStrip (String.mk rc)) varName)
    { collection := coll, operation := "find", filter := some query,
      sort := match sortOpt with
              | some sp => if sp.isEmpty then none else some sp
              | none => none,
      projection := match projOpt with
                    | some pr => if pr.isEmpty then none else some pr
                    | none => none }
  | none => .error .unsupportedReadSyntax

/-- `parse_xquery` — the Dialect Router (conversion.py lines 11-34).  The
input is stripped, then the four cues are tested in fixed order. -/
def parse_xquery (s : String) : Except ConvError MongoOp :=
  let t := pyStrip s
  if insertCue t then parse_insert t
  else if updateCue t then parse_update t
  else if deleteCue t then parse_delete t
  else if readCue t then parse_read t
  else .error .unsupportedStatement

/-! ## The converter instance with its binding table

`XQueryToMongoCRUDConverter.__init__` creates `self.var_mappings = {}`;
the only write is in `_parse_read` when the iteration clause binds a
variable to a collection (conversion.py line 364); no code reads it. -/

abbrev VarMap := List (String × String)

/-- Python dict assignment on the binding table. -/
def setKeyS (m : VarMap) (k v : String) : VarMap :=
  setKey m k v

/-- `_parse_read` including its `self.var_mappings[var_name] =
collection_name` side effect. -/
def parse_read_st (vm : VarMap) (s : String) :
    Except ConvError MongoOp × VarMap :=
  match searchFindShorthand s.data with
  | some _ => (parse_read s, vm)
  | none =>
    match searchForIn s.data with
    | some (varName, coll, _) => (parse_read s, setKeyS vm varName coll)
    | none => (parse_read s, vm)

/-- `parse_xquery` on a converter instance carrying a binding table. -/
def parse_xquery_st (vm : VarMap) (s : String) :
    Except ConvError MongoOp × VarMap :=
  let t := pyStrip s
  if insertCue t then (parse_insert t, vm)
  else if updateCue t then (parse_update t, vm)
  else if deleteCue t then (parse_delete t, vm)
  else if readCue t then parse_read_st vm t
  else (.error .unsupportedStatement, vm)

/-- The binding table left after translating a sequence of statements on
one converter instance (ignoring per-statement results, as a batch driver
does). -/
def runStatements (stmts : List String) (vm : VarMap) : VarMap :=
  stmts.foldl (fun acc st => (parse_xquery_st acc st).2) vm

/-! ## The xdmp document-key dialect (`xquery_to_mongo.py`)

`convert_xquery_to_mongo` returns a plain dict; `eval` on the replacement
text is modelled by the same strict structured-literal parser (on the
literal fragment both `eval` and `json.loads` produce the same dict), and
an `eval` failure — an uncaught Python exception — is the `.error` case. -/

structure XdmpOp where
  operation : Option String := none
  data : Option Doc := none
  query : Option Doc := none
  update : Option Doc := none
  errorMsg : Option String := none
deriving Repr

/-- Python `x in s` substring test. -/
def containsSub (needle : List Char) (cs : List Char) : Bool :=
  (scanFor (matchLit needle) cs).isSome

/-- Lazy `(.+?)STOP` for a flagless pattern: nonempty minimal capture that
cannot contain a newline. -/
def lazyScanNoNl (stop : List Char → Option α) (accRev : List Char)
    (cs : List Char) : Option (List Char × α) :=
  match stop cs with
  | some a => some (accRev.reverse, a)
  | none =>
    match cs with
    | [] => none
    | c :: rest =>
      if c = '\n' then none else lazyScanNoNl stop (c :: accRev) rest

def lazyPlusNoNl (stop : List Char → Option α) (cs : List Char) :
    Option (List Char × α) :=
  match cs with
  | [] => none
  | c :: rest => if c = '\n' then none else lazyScanNoNl stop [c] rest

/-- `(.+)\)` for a flagless pattern: greedy up to the newline, backtracking
to the last closing parenthesis on the line. -/
def greedyLineLastParen (r : List Char) : Option (List Char × List Char) :=
  let seg := r.takeWhile (fun c => !(c = '\n'))
  (splitLastParen seg).bind fun content =>
  if content.isEmpty then none
  else some (content, r.drop seg.length)

/-- `xdmp:document-insert\("(.+?)", (.+)\)` — flagless: the lazy id group
stops at the first `", ` sequence, the greedy document group cannot cross
a newline and backtracks to the last closing parenthesis. -/
def searchXdmpInsert (cs : List Char) : Option (String × String) :=
  scanFor (fun t =>
    (matchLit "xdmp:document-insert(\"".data t).bind fun r1 =>
    (lazyPlusNoNl
      (fun u =>
        (matchLit "\", ".data u).bind fun r2 =>
        (greedyLineLastParen r2).map fun g => g.1) r1).map fun g =>
      (String.mk g.1, String.mk g.2)) cs

/-- `xdmp:document-get\("(.+?)"\)`. -/
def searchXdmpGet (cs : List Char) : Option String :=
  scanFor (fun t =>
    (matchLit "xdmp:document-get(\"".data t).bind fun r1 =>
    (lazyPlusNoNl (fun u => matchLit "\")".data u) r1).map fun g =>
      String.mk g.1) cs

/-- `xdmp:document-delete\("(.+?)"\)`. -/
def searchXdmpDelete (cs : List Char) : Option String :=
  scanFor (fun t =>
    (matchLit "xdmp:document-delete(\"".data t).bind fun r1 =>
    (lazyPlusNoNl (fun u => matchLit "\")".data u) r1).map fun g =>
      String.mk g.1) cs

/-- `xdmp:node-replace\(doc\("(.+?)"\)//(.+?), (.+)\)`. -/
def searchXdmpReplace (cs : List Char) : Option (String × String × String) :=
  scanFor (fun t =>
    (matchLit "xdmp:node-replace(doc(\"".data t).bind fun r1 =>
    (lazyPlusNoNl
      (fun u =>
        (matchLit "\")//".data u).bind fun r2 =>
        (lazyPlusNoNl
          (fun w =>
            (matchLit ", ".data w).bind fun r3 =>
            (greedyLineLastParen r3).map fun g => g.1) r2).map fun g =>
          (g.1, g.2)) r1).map fun g =>
      (String.mk g.1, String.mk g.2.1, String.mk g.2.2)) cs

/-- `convert_xquery_to_mongo` (xquery_to_mongo.py lines 10-44).  The
`.error` result models the uncaught exception raised when `eval` is
applied to a replacement text that is not a structured literal. -/
def convert_xquery_to_mongo (x : String) : Except String XdmpOp :=
  if containsSub "xdmp:document-insert".data x.data then
    match searchXdmpInsert x.data with
    | some (docId, lit) =>
      match parseLit lit with
      | some (Doc.obj kvs) =>
        .ok { operation := some "insert",
              data := some (.obj (setKey kvs "_id" (.str docId))) }
      | some _ => .error "document key assignment on a non-dict value"
      | none => .error "eval failed on insert document"
    | none => .ok { errorMsg := some "Unsupported XQuery statement" }
  else if containsSub "xdmp:document-get".data x.data then
    match searchXdmpGet x.data with
    | some docId =>
      .ok { operation := some "find", query := some (.obj [("_id", .str docId)]) }
    | none => .ok { errorMsg := some "Unsupported XQuery statement" }
  else if containsSub "xdmp:node-replace".data x.data then
    match searchXdmpReplace x.data with
    | some (docId, field, valTxt) =>
      match parseLit valTxt with
      | some v =>
        .ok { operation := some "update",
              query := some (.obj [("_id", .str docId)]),
              update := some (.obj [("$set", .obj [(field, v)])]) }
      | none => .error "eval failed on replacement value"
    | none => .ok { errorMsg := some "Unsupported XQuery statement" }
  else if containsSub "xdmp:document-delete".data x.data then
    match searchXdmpDelete x.data with
    | some docId =>
      .ok { operation := some "delete", query := some (.obj [("_id", .str docId)]) }
    | none => .ok { errorMsg := some "Unsupported XQuery statement" }
  else .ok { errorMsg := some "Unsupported XQuery statement" }

/-! ## Association-list lemmas -/

theorem lookup_setKey {β : Type} (m : List (String × β)) (k : String) (v : β)
    (k' : String) :
    lookupKey (setKey m k v) k' = if k = k' then some v else lookupKey m k' := by
  induction m with
  | nil =>
    by_cases h : k = k' <;> simp [setKey, lookupKey, h]
  | cons p rest ih =>
    obtain ⟨pk, pv⟩ := p
    by_cases h : pk = k
    · subst h
      by_cases h2 : pk = k' <;> simp [setKey, lookupKey, h2]
    · by_cases h2 : pk = k'
      · subst h2
        have hne : ¬ k = pk := fun hh => h hh.symm
        simp [setKey, lookupKey, h, hne]
      · simp [setKey, lookupKey, h, h2, ih]

theorem setKey_append {β : Type} (m : List (String × β)) (k : String) (v : β)
    (h : ∀ p ∈ m, p.1 ≠ k) :
    setKey m k v = m ++ [(k, v)] := by
  induction m with
  | nil => simp [setKey]
  | cons p rest ih =>
    obtain ⟨pk, pv⟩ := p
    have h1 : pk ≠ k := h (pk, pv) (by simp)
    have h2 : ∀ q ∈ rest, (q : String × β).1 ≠ k := fun q hq => h q (by simp [hq])
    simp [setKey, h1, ih h2]

theorem lookup_append_right {β : Type} (m m' : List (String × β)) (k : String)
    (h : lookupKey m k = none) :
    lookupKey (m ++ m') k = lookupKey m' k := by
  induction m with
  | nil => simp
  | cons p rest ih =>
    obtain ⟨pk, pv⟩ := p
    by_cases h1 : pk = k
    · simp [lookupKey, h1] at h
    · simp only [lookupKey, h1, if_neg h1] at h ⊢
      simp [List.cons_append, lookupKey, h1]
      exact ih h

theorem lookup_append_left {β : Type} (m m' : List (String × β)) (k : String)
    (v : β) (h : lookupKey m k = some v) :
    lookupKey (m ++ m') k = some v := by
  induction m with
  | nil => simp [lookupKey] at h
  | cons p rest ih =>
    obtain ⟨pk, pv⟩ := p
    by_cases h1 : pk = k
    · simp [lookupKey, h1] at h ⊢
      exact h
    · simp [lookupKey, h1] at h ⊢
      exact ih h

theorem lookup_none_of_not_mem {β : Type} (m : List (String × β)) (k : String)
    (h : k ∉ m.map Prod.fst) :
    lookupKey m k = none := by
  induction m with
  | nil => simp [lookupKey]
  | cons p rest ih =>
    obtain ⟨pk, pv⟩ := p
    have h1 : ¬ pk = k := by
      intro hh
      exact h (by simp [hh])
    have h2 : k ∉ rest.map Prod.fst := by
      intro hh
      exact h (by simp [hh])
    simp [lookupKey, h1, ih h2]

/-! ## Characterization of the Value Resolver output (for C9) -/

theorem all_digit_not_ws (c : Char) (h : digitChar c = true) : wsChar c = false := by
  unfold digitChar at h
  unfold wsChar
  by_cases h1 : c = ' '
  · subst h1; revert h; decide
  by_cases h2 : c = '\t'
  · subst h2; revert h; decide
  by_cases h3 : c = '\n'
  · subst h3; revert h; decide
  by_cases h4 : c = '\r'
  · subst h4; revert h; decide
  by_cases h5 : c = '\x0b'
  · subst h5; revert h; decide
  by_cases h6 : c = '\x0c'
  · subst h6; revert h; decide
  simp [h1, h2, h3, h4, h5, h6]

theorem dropWhile_all_false {p : α → Bool} {l : List α}
    (h : ∀ x ∈ l, p x = false) : l.dropWhile p = l := by
  cases l with
  | nil => simp
  | cons a r =>
    have := h a (by simp)
    simp [List.dropWhile_cons, this]

theorem pyStripL_all_not_ws {l : List Char} (h : ∀ x ∈ l, wsChar x = false) :
    pyStripL l = l := by
  unfold pyStripL
  rw [dropWhile_all_false h]
  rw [dropWhile_all_false (by intro x hx; exact h x (by simpa using hx))]
  simp

theorem dropWhile_head_false {p : α → Bool} :
    ∀ {l : List α} {c : α} {r : List α}, l.dropWhile p = c :: r → p c = false := by
  intro l
  induction l with
  | nil => intro c r h; simp at h
  | cons a rest ih =>
    intro c r h
    by_cases ha : p a
    · simp [List.dropWhile_cons, ha] at h
      exact ih h
    · simp [List.dropWhile_cons, ha] at h
      rw [← h.1]
      simpa using ha

theorem normDigits_spec {cs : List Char} (h : cs.all digitChar) :
    (normDigits cs).all digitChar ∧ normDigits cs ≠ [] ∧
      normDigits (normDigits cs) = normDigits cs := by
  unfold normDigits
  cases hd : cs.dropWhile (fun c => c = '0') with
  | nil =>
    refine ⟨by decide, by simp, ?_⟩
    simp [normDigits]
  | cons c r =>
    have hsub : (c :: r).all digitChar := by
      have hsl : (cs.dropWhile (fun c => c = '0')).Sublist cs :=
        List.dropWhile_sublist _
      rw [hd] at hsl
      rw [List.all_eq_true] at h ⊢
      intro x hx
      exact h x (hsl.mem hx)
    have hc0 : (c = '0') = False := by
      have := dropWhile_head_false (p := fun c => c = '0') hd
      simpa using this
    refine ⟨hsub, by simp, ?_⟩
    simp [normDigits, List.dropWhile_cons, hc0]

theorem normFrac_spec {cs : List Char} (h : cs.all digitChar) :
    (normFrac cs).all digitChar ∧ normFrac cs ≠ [] ∧
      normFrac (normFrac cs) = normFrac cs := by
  unfold normFrac
  have hrev : cs.reverse.all digitChar := by
    rw [List.all_eq_true] at h ⊢
    intro x hx
    exact h x (by simpa using hx)
  obtain ⟨h1, h2, h3⟩ := normDigits_spec hrev
  refine ⟨?_, by simpa using h2, ?_⟩
  · rw [List.all_eq_true] at h1 ⊢
    intro x hx
    exact h1 x (by simpa using hx)
  · rw [List.reverse_reverse, h3]

theorem mk_data (s : String) : String.mk s.data = s := by
  cases s
  rfl

theorem getLast_append_single (l : List α) (a : α) :
    (l ++ [a]).getLast? = some a := by
  induction l with
  | nil => rfl
  | cons b r ih =>
    rw [List.cons_append]
    rw [List.getLast?_cons]
    rw [ih]
    cases r <;> simp_all

theorem dropLast_append_single (l : List α) (a : α) :
    (l ++ [a]).dropLast = l := by
  induction l with
  | nil => rfl
  | cons b r ih =>
    rw [List.cons_append]
    cases hr : r ++ [a] with
    | nil => simp at hr
    | cons x xs =>
      rw [List.dropLast_cons₂]
      rw [← hr, ih]

theorem pyStripL_quote (q : Char) (l : List Char) (hq : wsChar q = false) :
    pyStripL (q :: l ++ [q]) = q :: l ++ [q] := by
  unfold pyStripL
  rw [show (q :: l ++ [q] : List Char) = q :: (l ++ [q]) by simp]
  rw [List.dropWhile_cons]
  simp only [hq, Bool.false_eq_true, if_false]
  rw [List.reverse_cons]
  rw [List.reverse_append]
  rw [show ([q].reverse ++ l.reverse) ++ [q] = q :: (l.reverse ++ [q]) by simp]
  rw [List.dropWhile_cons]
  simp only [hq, Bool.false_eq_true, if_false]
  simp

theorem parse_value_quoted (s : String) :
    parse_value ("\"" ++ s ++ "\"") = .str s := by
  have hdata : ("\"" ++ s ++ "\"").data = '"' :: s.data ++ ['"'] := by
    cases s
    simp [String.data_append]
  simp only [parse_value]
  rw [hdata, pyStripL_quote '"' s.data (by decide)]
  have hl : ('"' :: s.data ++ ['"']).getLast? = some '"' := by
    rw [show ('"' :: s.data ++ ['"'] : List Char) = ('"' :: s.data) ++ ['"'] by simp]
    exact getLast_append_single _ _
  rw [if_pos]
  · rw [show ('"' :: s.data ++ ['"'] : List Char).drop 1 = s.data ++ ['"'] by simp]
    rw [dropLast_append_single, mk_data]
  · rw [hl]
    simp

theorem digit_head_not_quote {c : Char} (h : digitChar c = true) :
    (c = '"') = False ∧ (c = '\'') = False := by
  constructor
  · by_cases hc : c = '"'
    · subst hc; revert h; decide
    · simp [hc]
  · by_cases hc : c = '\''
    · subst hc; revert h; decide
    · simp [hc]

theorem takeWhile_all_append {p : α → Bool} {l1 : List α} {c : α} (l2 : List α)
    (h1 : ∀ x ∈ l1, p x = true) (hc : p c = false) :
    (l1 ++ c :: l2).takeWhile p = l1 := by
  induction l1 with
  | nil => simp [List.takeWhile_cons, hc]
  | cons a r ih =>
    have ha := h1 a (by simp)
    rw [List.cons_append, List.takeWhile_cons, ha]
    simp only [if_true]
    rw [ih (fun x hx => h1 x (by simp [hx]))]

theorem parse_value_digits (d : List Char) (hall : d.all digitChar)
    (hne : d ≠ []) :
    parse_value (String.mk d) = .intLit (String.mk (normDigits d)) := by
  have hstrip : pyStripL d = d := by
    apply pyStripL_all_not_ws
    intro x hx
    exact all_digit_not_ws x (by rw [List.all_eq_true] at hall; exact hall x hx)
  simp only [parse_value]
  simp only [show (String.mk d).data = d from rfl, hstrip]
  obtain ⟨c, t, rfl⟩ : ∃ c t, d = c :: t := by
    cases d with
    | nil => exact absurd rfl hne
    | cons c t => exact ⟨c, t, rfl⟩
  have hc : digitChar c = true := by
    rw [List.all_eq_true] at hall
    exact hall c (by simp)
  obtain ⟨hq1, hq2⟩ := digit_head_not_quote hc
  have hdig : isDigitsL (c :: t) = true := by
    simp [isDigitsL, hall]
  rw [if_neg (by simp [hq1, hq2]), if_pos hdig]

theorem parse_value_float (ip fp : List Char)
    (hip : ip.all digitChar) (hipn : ip ≠ [])
    (hfp : fp.all digitChar) (hfpn : fp ≠ []) :
    parse_value (String.mk (ip ++ '.' :: fp)) =
      .floatLit (String.mk (normDigits ip)) (String.mk (normFrac fp)) := by
  have hallmem : ∀ x ∈ ip ++ '.' :: fp, wsChar x = false := by
    intro x hx
    rcases List.mem_append.mp hx with h1 | h2
    · exact all_digit_not_ws x (by rw [List.all_eq_true] at hip; exact hip x h1)
    · rcases List.mem_cons.mp h2 with h3 | h4
      · subst h3; decide
      · exact all_digit_not_ws x (by rw [List.all_eq_true] at hfp; exact hfp x h4)
  have hstrip : pyStripL (ip ++ '.' :: fp) = ip ++ '.' :: fp :=
    pyStripL_all_not_ws hallmem
  simp only [parse_value]
  simp only [show (String.mk (ip ++ '.' :: fp)).data = ip ++ '.' :: fp from rfl, hstrip]
  obtain ⟨c, t, hd⟩ : ∃ c t, ip = c :: t := by
    cases ip with
    | nil => exact absurd rfl hipn
    | cons c t => exact ⟨c, t, rfl⟩
  have hc : digitChar c = true := by
    rw [List.all_eq_true] at hip
    exact hip c (by rw [hd]; simp)
  obtain ⟨hq1, hq2⟩ := digit_head_not_quote hc
  have htw : (ip ++ '.' :: fp).takeWhile digitChar = ip :=
    takeWhile_all_append fp (by rw [List.all_eq_true] at hip; exact hip) (by decide)
  have hfs : floatShape (ip ++ '.' :: fp) = some (ip, fp) := by
    unfold floatShape
    simp only [htw, List.drop_left]
    have h1 : ip.isEmpty = false := by
      cases ip
      · exact absurd rfl hipn
      · simp
    have h2 : (!fp.isEmpty && fp.all digitChar) = true := by
      cases fp
      · exact absurd rfl hfpn
      · simp_all
    simp [h1, h2]
  rw [if_neg, if_neg, hfs]
  · -- not all digits: '.' is in the list
    intro hdig
    simp only [isDigitsL, Bool.and_eq_true, List.all_eq_true] at hdig
    have := hdig.2 '.' (by simp)
    revert this
    decide
  · rw [hd]
    simp [hq1, hq2]

/-- The Value Resolver only produces strings, normalized integers,
normalized floats, booleans and null. -/
theorem parse_value_cases (t : String) :
    (∃ s, parse_value t = .str s) ∨
    (∃ d, d.all digitChar = true ∧ d ≠ [] ∧
        parse_value t = .intLit (String.mk (normDigits d))) ∨
    (∃ ip fp, ip.all digitChar = true ∧ ip ≠ [] ∧ fp.all digitChar = true ∧
        fp ≠ [] ∧
        parse_value t = .floatLit (String.mk (normDigits ip)) (String.mk (normFrac fp))) ∨
    parse_value t = .bool true ∨ parse_value t = .bool false ∨
    parse_value t = .null := by
  simp only [parse_value]
  set v := pyStripL t.data with hv
  by_cases h1 : ((v.head? = some '"' && v.getLast? = some '"')
      || (v.head? = some '\'' && v.getLast? = some '\'')) = true
  · left
    exact ⟨_, by rw [if_pos h1]⟩
  · rw [if_neg h1]
    by_cases h2 : isDigitsL v = true
    · right; left
      have h2x : ¬ v = [] ∧ ∀ x ∈ v, digitChar x = true := by
        have hh := h2
        simp [isDigitsL] at hh
        exact hh
      exact ⟨v, List.all_eq_true.mpr h2x.2, h2x.1, by rw [if_pos h2]⟩
    · rw [if_neg h2]
      cases hfs : floatShape v with
      | some pr =>
        obtain ⟨ip, fp⟩ := pr
        right; right; left
        have hspec : ip = v.takeWhile digitChar ∧ fp.all digitChar = true ∧
            fp ≠ [] ∧ ip ≠ [] := by
          unfold floatShape at hfs
          split at hfs
          · rename_i rest heq
            by_cases he : (v.takeWhile digitChar).isEmpty = true
            · rw [if_pos he] at hfs
              cases hfs
            · rw [if_neg he] at hfs
              by_cases hr : (!rest.isEmpty && rest.all digitChar) = true
              · rw [if_pos hr] at hfs
                simp only [Option.some.injEq, Prod.mk.injEq] at hfs
                obtain ⟨hfs1, hfs2⟩ := hfs
                have hrr : ¬ fp = [] ∧ ∀ x ∈ fp, digitChar x = true := by
                  have hh := hr
                  rw [hfs2] at hh
                  simp at hh
                  exact hh
                refine ⟨hfs1.symm, List.all_eq_true.mpr hrr.2, hrr.1, ?_⟩
                intro hnil
                apply he
                rw [hfs1, hnil]
                rfl
              · rw [if_neg hr] at hfs
                cases hfs
          · cases hfs
        obtain ⟨hip, hfpall, hfpne, hipne⟩ := hspec
        refine ⟨ip, fp, ?_, hipne, hfpall, hfpne, rfl⟩
        rw [hip, List.all_eq_true]
        intro x hx
        exact List.mem_takeWhile_imp hx
      | none =>
        by_cases h3 : pyLowerL v = "true".data
        · right; right; right; left
          simp [h3]
        · by_cases h4 : pyLowerL v = "false".data
          · right; right; right; right; left
            simp [h3, h4]
          · by_cases h5 : (pyLowerL v = "null".data || pyLowerL v = "none".data) = true
            · right; right; right; right; right
              simp only [h3, h4]
              simp [h5]
            · left
              by_cases h6 : v.contains '(' = true
              · exact ⟨String.mk v, by simp [h3, h4, h5, h6]⟩
              · exact ⟨String.mk v, by simp [h3, h4, h5, h6]⟩

/-- C9: the Value Resolver is idempotent up to canonical string form — for
every literal token, resolving the canonical string form of the resolved
typed value yields the same type and value as the first resolution. -/
theorem C9_value_resolver_idempotent (t : String) :
    parse_value (canonicalToken (parse_value t)) = parse_value t := by
  rcases parse_value_cases t with ⟨s, hs⟩ | ⟨d, hall, hne, hd⟩ |
    ⟨ip, fp, hip, hipn, hfp, hfpn, hf⟩ | hb | hb | hb
  · rw [hs]
    exact parse_value_quoted s
  · rw [hd]
    show parse_value (String.mk (normDigits d)) = _
    obtain ⟨h1, h2, h3⟩ := normDigits_spec hall
    rw [parse_value_digits (normDigits d) h1 h2, h3]
  · rw [hf]
    show parse_value (String.mk (normDigits ip) ++ "." ++ String.mk (normFrac fp)) = _
    have hdata : (String.mk (normDigits ip) ++ "." ++ String.mk (normFrac fp)) =
        String.mk (normDigits ip ++ '.' :: normFrac fp) := by
      show String.mk ((normDigits ip ++ ['.']) ++ normFrac fp) = _
      rw [List.append_assoc]
      rfl
    rw [hdata]
    obtain ⟨hi1, hi2, hi3⟩ := normDigits_spec hip
    obtain ⟨hf1, hf2, hf3⟩ := normFrac_spec hfp
    rw [parse_value_float _ _ hi1 hi2 hf1 hf2, hi3, hf3]
  · rw [hb]
    rfl
  · rw [hb]
    rfl
  · rw [hb]
    rfl

/-- C5: evaluation of the Predicate Engine at the symbolic and keyword
comparator forms.  The claim says `>=`/`ge` emit `$gte` and `<=`/`le` emit
`$lte`; the code's greater-than branch is tested before greater-or-equal
and its pattern `\s*>\s*(.+)` already matches `>=`, so a symbolic `>=`
fragment is emitted as `$gt` with the junk value `"= 18"` (and `<=` as
`$lt`), while only the keyword forms reach the `$gte`/`$lte` branches —
contradicting both the claim and the branch's own comment. -/
theorem C5_gte_lte_shadowed :
    parse_single_condition "$u/age >= 18" "u" =
      .ok ("age", .obj [("$gt", .str "= 18")]) ∧
    parse_single_condition "$u/age <= 18" "u" =
      .ok ("age", .obj [("$lt", .str "= 18")]) ∧
    parse_single_condition "$u/age ge 18" "u" =
      .ok ("age", .obj [("$gte", .intLit "18")]) ∧
    parse_single_condition "$u/age le 18" "u" =
      .ok ("age", .obj [("$lte", .intLit "18")]) :=
  ⟨rfl, rfl, rfl, rfl⟩

/-- C6 counterexample: a path of neither accepted shape (context variable
`u`, path rooted at a different variable `x`) is not rejected — the Path
Resolver returns it with slashes replaced by dots, and the Predicate
Engine emits it as a filter key, so no `MalformedPath` failure exists. -/
theorem C6_counterexample :
    parse_path "$x/a" "u" = "$x.a" ∧
    parse_single_condition "$x/a = 1" "u" = .ok ("$x.a", .intLit "1") :=
  ⟨rfl, rfl⟩

/-- C6 (amended): the Path Resolver strips a matching context-variable
prefix and joins with dots, resolves the bare context variable to the
reserved identifier field, and resolves every other path by replacing
slashes with dots — it never rejects a path. -/
theorem C6_path_resolver_total (path contextVar : String) :
    ((("$" ++ contextVar ++ "/").data).isPrefixOf path.data = true →
      parse_path path contextVar =
        slashToDot (String.mk (path.data.drop (contextVar.data.length + 2)))) ∧
    (¬ (("$" ++ contextVar ++ "/").data).isPrefixOf path.data = true →
      path = "$" ++ contextVar → parse_path path contextVar = "_id") ∧
    (¬ (("$" ++ contextVar ++ "/").data).isPrefixOf path.data = true →
      path ≠ "$" ++ contextVar → parse_path path contextVar = slashToDot path) := by
  refine ⟨fun h1 => ?_, fun h1 h2 => ?_, fun h1 h2 => ?_⟩
  · unfold parse_path
    rw [if_pos h1]
  · unfold parse_path
    rw [if_neg h1, if_pos h2]
  · unfold parse_path
    rw [if_neg h1, if_neg h2]

/-- C6 witness. -/
theorem C6_path_resolver_total_witness :
    parse_path "$u/a/b" "u" = "a.b" ∧ parse_path "$u" "u" = "_id" ∧
    parse_path "plain" "u" = "plain" := by
  refine ⟨?_, ?_, ?_⟩
  · have h := (C6_path_resolver_total "$u/a/b" "u").1 (by decide)
    rw [h]
    rfl
  · have h := (C6_path_resolver_total "$u" "u").2.1 (by decide) rfl
    exact h
  · have h := (C6_path_resolver_total "plain" "u").2.2 (by decide) (by decide)
    rw [h]
    rfl

/-- C4 counterexample: a shorthand update whose modifier literal contains
the text `"$set"` only inside a string value — the literal has no
recognized modifier key — is passed through verbatim instead of being
wrapped under `$set`, because the check is a textual substring search. -/
theorem C4_counterexample :
    parse_update "db.collection(\"c\").update(\x7b\x7d, \x7b\"a\": \"$set\"\x7d)" =
      .ok { collection := "c", operation := "updateMany",
            filter := some (.obj []),
            update := some (.obj [("a", .str "$set")]) } ∧
    (lookupKey [("a", Doc.str "$set")] "$set").isNone = true ∧
    (lookupKey [("a", Doc.str "$set")] "$inc").isNone = true ∧
    (lookupKey [("a", Doc.str "$set")] "$push").isNone = true ∧
    ("a" = "$set") = False :=
  ⟨rfl, rfl, rfl, rfl, by simp⟩

/-- C4 (amended): the modifier argument of a shorthand update is used
verbatim exactly when its cleaned text starts with a brace and contains
one of the exact substrings `"$set"`, `"$inc"`, `"$push"` anywhere (even
inside a string value); otherwise the parsed literal is wrapped under the
`$set` modifier. -/
theorem C4_update_modifier_textual (s : String) (coll : String)
    (qRaw uRaw : List Char) (q u : Doc)
    (hsearch : searchUpdateShorthand s.data = some (coll, qRaw, uRaw))
    (hq : parseLit (String.mk (cleanupBrace (pyStripL qRaw))) = some q)
    (hu : parseLit (String.mk (cleanupBrace (pyStripL uRaw))) = some u) :
    parse_update s = .ok
      { collection := coll, operation := "updateMany", filter := some q,
        update := some
          (if (pyStripL (cleanupBrace (pyStripL uRaw))).head? = some '\x7b'
              && hasModifierText (cleanupBrace (pyStripL uRaw)) then u
           else .obj [("$set", u)]) } := by
  unfold parse_update
  rw [hsearch]
  simp only [hq, hu]
  by_cases hmod : ((pyStripL (cleanupBrace (pyStripL uRaw))).head? = some '\x7b'
      && hasModifierText (cleanupBrace (pyStripL uRaw))) = true
  · rw [if_pos hmod, if_pos hmod]
  · rw [if_neg hmod, if_neg hmod]

/-- C4 witness. -/
theorem C4_update_modifier_textual_witness :
    parse_update "db.collection(\"c\").update(\x7b\x7d, \x7b\"$inc\": \x7b\"n\": 1\x7d\x7d)" =
      .ok { collection := "c", operation := "updateMany",
            filter := some (.obj []),
            update := some (.obj [("$inc", .obj [("n", .intLit "1")])]) } := by
  have h := C4_update_modifier_textual
    "db.collection(\"c\").update(\x7b\x7d, \x7b\"$inc\": \x7b\"n\": 1\x7d\x7d)"
    "c" "\x7b\x7d".data "\x7b\"$inc\": \x7b\"n\": 1\x7d\x7d".data
    (.obj []) (.obj [("$inc", .obj [("n", .intLit "1")])]) rfl rfl rfl
  rw [h]
  rfl

/-- C3 counterexample: the valid structured document literal
`{"a": ",}"}` — whose single value is the two-character string `,}` — is
rewritten by the trailing-comma cleanup before parsing, so the produced
Insert document is `{"a": "}"}`, not the literal. -/
theorem C3_counterexample :
    parseLit "\x7b\"a\": \",\x7d\"\x7d" = some (.obj [("a", .str ",\x7d")]) ∧
    parse_insert "db.collection(\"users\").insert(\x7b\"a\": \",\x7d\"\x7d)" =
      .ok { collection := "users", operation := "insertOne",
            document := some (.obj [("a", .str "\x7d")]) } ∧
    (",\x7d" = "\x7d") = False :=
  ⟨rfl, rfl, by simp⟩

/-- C3 (amended): the produced Insert document equals the supplied
structured literal only as long as the literal's text is unchanged by the
trailing-comma cleanup (shorthand dialect) — and the hierarchical
`insert node` form with a brace-delimited literal also takes the parsed
literal as-is, with no identifier forced; the identifier field is forced
(set to the externally supplied document key) only in the xdmp
document-key dialect. -/
theorem C3_insert_document_forms (s x : String) (coll docId : String)
    (t content : List Char) (lit : String) (d d2 : Doc)
    (kvs : List (String × Doc)) :
    (searchInsertShorthand s.data = some (coll, t) →
      cleanupBoth (pyStripL t) = pyStripL t →
      parseLit (String.mk (pyStripL t)) = some d →
      parse_insert s = .ok { collection := coll, operation := "insertOne",
                             document := some d }) ∧
    (searchInsertShorthand s.data = none →
      searchInsertNode s.data = some (content, coll) →
      (pyStripL content).head? = some '\x7b' →
      (pyStripL content).getLast? = some '\x7d' →
      parseLit (String.mk (pyStripL content)) = some d2 →
      parse_insert s = .ok { collection := coll, operation := "insertOne",
                             document := some d2 }) ∧
    (containsSub "xdmp:document-insert".data x.data = true →
      searchXdmpInsert x.data = some (docId, lit) →
      parseLit lit = some (.obj kvs) →
      convert_xquery_to_mongo x = .ok
        { operation := some "insert",
          data := some (.obj (setKey kvs "_id" (.str docId))) }) := by
  refine ⟨fun h1 h2 h3 => ?_, fun h1 h2 h3 h4 h5 => ?_, fun h1 h2 h3 => ?_⟩
  · unfold parse_insert
    rw [h1]
    simp only [h2, h3]
  · unfold parse_insert
    rw [h1, h2]
    simp [h3, h4, h5]
  · unfold convert_xquery_to_mongo
    rw [if_pos h1, h2]
    simp [h3]

/-- C3 witness. -/
theorem C3_insert_document_forms_witness :
    parse_insert "db.collection(\"users\").insert(\x7b\"name\": \"John\"\x7d)" =
      .ok { collection := "users", operation := "insertOne",
            document := some (.obj [("name", .str "John")]) } ∧
    parse_insert "insert node \x7b\"name\": \"John\"\x7d into collection(\"users\")" =
      .ok { collection := "users", operation := "insertOne",
            document := some (.obj [("name", .str "John")]) } ∧
    convert_xquery_to_mongo "xdmp:document-insert(\"/b/n.xml\", \x7b\"title\": \"New\"\x7d)" =
      .ok { operation := some "insert",
            data := some (.obj [("title", .str "New"), ("_id", .str "/b/n.xml")]) } := by
  refine ⟨?_, ?_, ?_⟩
  · have h := (C3_insert_document_forms
      "db.collection(\"users\").insert(\x7b\"name\": \"John\"\x7d)" ""
      "users" "" "\x7b\"name\": \"John\"\x7d".data [] ""
      (.obj [("name", .str "John")]) (.obj []) []).1 rfl rfl rfl
    exact h
  · have h := (C3_insert_document_forms
      "insert node \x7b\"name\": \"John\"\x7d into collection(\"users\")" ""
      "users" "" [] "\x7b\"name\": \"John\"\x7d".data ""
      (.obj []) (.obj [("name", .str "John")]) []).2.1 rfl rfl rfl rfl rfl
    exact h
  · have h := (C3_insert_document_forms ""
      "xdmp:document-insert(\"/b/n.xml\", \x7b\"title\": \"New\"\x7d)"
      "" "/b/n.xml" [] [] "\x7b\"title\": \"New\"\x7d"
      (.obj []) (.obj []) [("title", .str "New")]).2.2 rfl rfl rfl
    exact h

/-- C2: the Dialect Router tests the cues in the fixed order Insert,
Update, Delete, Read on the stripped statement; the first matching cue
dispatches (regardless of later cues), and when no cue matches the
translation fails with the unsupported-statement error and no canonical
operation. -/
theorem C2_router_priority (s : String) :
    (insertCue (pyStrip s) = true → parse_xquery s = parse_insert (pyStrip s)) ∧
    (insertCue (pyStrip s) = false → updateCue (pyStrip s) = true →
      parse_xquery s = parse_update (pyStrip s)) ∧
    (insertCue (pyStrip s) = false → updateCue (pyStrip s) = false →
      deleteCue (pyStrip s) = true → parse_xquery s = parse_delete (pyStrip s)) ∧
    (insertCue (pyStrip s) = false → updateCue (pyStrip s) = false →
      deleteCue (pyStrip s) = false → readCue (pyStrip s) = true →
      parse_xquery s = parse_read (pyStrip s)) ∧
    (insertCue (pyStrip s) = false → updateCue (pyStrip s) = false →
      deleteCue (pyStrip s) = false → readCue (pyStrip s) = false →
      parse_xquery s = .error .unsupportedStatement) := by
  refine ⟨fun h1 => ?_, fun h1 h2 => ?_, fun h1 h2 h3 => ?_,
    fun h1 h2 h3 h4 => ?_, fun h1 h2 h3 h4 => ?_⟩ <;>
    simp [parse_xquery, h1] <;> simp [h2] <;> simp [h3] <;> simp [h4]

/-- C2 witness: `SELECT name FROM users` matches no cue and fails with the
unsupported-statement error; a statement matching both the Insert and the
Delete cue dispatches to the Insert parser. -/
theorem C2_router_priority_witness :
    parse_xquery "SELECT name FROM users" = .error .unsupportedStatement ∧
    parse_xquery "insert node \x7b\"a\": 1\x7d into collection(\"c\") delete node" =
      parse_insert "insert node \x7b\"a\": 1\x7d into collection(\"c\") delete node" ∧
    deleteCue "insert node \x7b\"a\": 1\x7d into collection(\"c\") delete node" = true := by
  refine ⟨?_, ?_, rfl⟩
  · exact (C2_router_priority "SELECT name FROM users").2.2.2.2 rfl rfl rfl rfl
  · have h := (C2_router_priority
      "insert node \x7b\"a\": 1\x7d into collection(\"c\") delete node").1 rfl
    exact h

/-- The per-instance binding table never influences results: the first
component of a translation is the pure router output whatever the table
holds. -/
theorem parse_xquery_st_fst (vm : VarMap) (s : String) :
    (parse_xquery_st vm s).1 = parse_xquery s := by
  unfold parse_xquery_st parse_xquery
  by_cases h1 : insertCue (pyStrip s) = true
  · simp [h1]
  · simp only [h1, Bool.false_eq_true, if_false]
    by_cases h2 : updateCue (pyStrip s) = true
    · simp [h2]
    · simp only [h2, Bool.false_eq_true, if_false]
      by_cases h3 : deleteCue (pyStrip s) = true
      · simp [h3]
      · simp only [h3, Bool.false_eq_true, if_false]
        by_cases h4 : readCue (pyStrip s) = true
        · simp only [h4, if_true]
          unfold parse_read_st
          cases hf : searchFindShorthand (pyStrip s).data
          · cases hfi : searchForIn (pyStrip s).data
            · rfl
            · rename_i pr
              obtain ⟨v, c, r⟩ := pr
              rfl
          · rfl
        · simp [h4]

/-- C10: translation is independent of the converter instance's mutable
binding table — translating a statement after any sequence of prior
statements (which may have written iteration-variable bindings) gives the
same result as translating it on a fresh converter. -/
theorem C10_state_independence (prior : List String) (s : String) :
    (parse_xquery_st (runStatements prior []) s).1 = (parse_xquery_st [] s).1 := by
  rw [parse_xquery_st_fst, parse_xquery_st_fst]

/-! ## C1: filter completeness of the Predicate Engine -/

/-- The operator form a condition shape emits: equality emits the bare
resolved scalar, the comparison shapes a single-operator sub-map, the
pattern shapes a `$regex` sub-map, the existence shapes an `$exists`
sub-map. -/
def entryShaped : CondShape → Doc → Prop
  | .eqS, v => (∃ s, v = .str s) ∨ (∃ d, v = .intLit d) ∨
      (∃ a b, v = .floatLit a b) ∨ (∃ b, v = .bool b) ∨ v = .null
  | .neS, v => ∃ w, v = .obj [("$ne", w)]
  | .gtS, v => ∃ w, v = .obj [("$gt", w)]
  | .gteS, v => ∃ w, v = .obj [("$gte", w)]
  | .ltS, v => ∃ w, v = .obj [("$lt", w)]
  | .lteS, v => ∃ w, v = .obj [("$lte", w)]
  | .containsS, v => ∃ s, v = .obj [("$regex", .str s), ("$options", .str "i")]
  | .startsWithS, v =>
      ∃ s, v = .obj [("$regex", .str ("^" ++ reEscape s)), ("$options", .str "i")]
  | .endsWithS, v =>
      ∃ s, v = .obj [("$regex", .str (reEscape s ++ "$")), ("$options", .str "i")]
  | .existsS, v => v = .obj [("$exists", .bool true)]
  | .notExistsS, v => v = .obj [("$exists", .bool false)]

/-- A successful single-condition parse comes from the first matching
catalogue shape: the emitted key is the resolved path of the captured path
group and the emitted value has that shape's operator form. -/
theorem parse_single_shape {c contextVar : String} {f : String} {v : Doc}
    (h : parse_single_condition c contextVar = .ok (f, v)) :
    ∃ sh p raw, condMatch (stripParensL c.data) = some (sh, p, raw) ∧
      f = parse_path (String.mk p) contextVar ∧ entryShaped sh v := by
  unfold parse_single_condition at h
  cases hm : condMatch (stripParensL c.data) with
  | none =>
    rw [hm] at h
    cases h
  | some trip =>
    obtain ⟨sh, p, raw⟩ := trip
    rw [hm] at h
    refine ⟨sh, p, raw, rfl, ?_⟩
    cases sh with
    | eqS =>
      simp only [Except.ok.injEq, Prod.mk.injEq] at h
      obtain ⟨h1, h2⟩ := h
      subst h1
      subst h2
      refine ⟨rfl, ?_⟩
      rcases parse_value_cases (String.mk raw) with ⟨s, hs⟩ | ⟨d, _, _, hd⟩ |
        ⟨ip, fp, _, _, _, _, hf⟩ | hb | hb | hb
      · exact Or.inl ⟨s, hs⟩
      · exact Or.inr (Or.inl ⟨_, hd⟩)
      · exact Or.inr (Or.inr (Or.inl ⟨_, _, hf⟩))
      · exact Or.inr (Or.inr (Or.inr (Or.inl ⟨_, hb⟩)))
      · exact Or.inr (Or.inr (Or.inr (Or.inl ⟨_, hb⟩)))
      · exact Or.inr (Or.inr (Or.inr (Or.inr hb)))
    | neS =>
      simp only [Except.ok.injEq, Prod.mk.injEq] at h
      exact ⟨h.1.symm, ⟨_, h.2.symm⟩⟩
    | gtS =>
      simp only [Except.ok.injEq, Prod.mk.injEq] at h
      exact ⟨h.1.symm, ⟨_, h.2.symm⟩⟩
    | gteS =>
      simp only [Except.ok.injEq, Prod.mk.injEq] at h
      exact ⟨h.1.symm, ⟨_, h.2.symm⟩⟩
    | ltS =>
      simp only [Except.ok.injEq, Prod.mk.injEq] at h
      exact ⟨h.1.symm, ⟨_, h.2.symm⟩⟩
    | lteS =>
      simp only [Except.ok.injEq, Prod.mk.injEq] at h
      exact ⟨h.1.symm, ⟨_, h.2.symm⟩⟩
    | containsS =>
      cases hpv : parse_value (String.mk raw) with
      | str s =>
        simp only [hpv, Except.ok.injEq, Prod.mk.injEq] at h
        exact ⟨h.1.symm, ⟨s, h.2.symm⟩⟩
      | intLit d => simp [hpv] at h
      | floatLit a b => simp [hpv] at h
      | bool b => simp [hpv] at h
      | null => simp [hpv] at h
      | obj kvs => simp [hpv] at h
      | arr items => simp [hpv] at h
    | startsWithS =>
      cases hpv : parse_value (String.mk raw) with
      | str s =>
        simp only [hpv, Except.ok.injEq, Prod.mk.injEq] at h
        exact ⟨h.1.symm, ⟨s, h.2.symm⟩⟩
      | intLit d => simp [hpv] at h
      | floatLit a b => simp [hpv] at h
      | bool b => simp [hpv] at h
      | null => simp [hpv] at h
      | obj kvs => simp [hpv] at h
      | arr items => simp [hpv] at h
    | endsWithS =>
      cases hpv : parse_value (String.mk raw) with
      | str s =>
        simp only [hpv, Except.ok.injEq, Prod.mk.injEq] at h
        exact ⟨h.1.symm, ⟨s, h.2.symm⟩⟩
      | intLit d => simp [hpv] at h
      | floatLit a b => simp [hpv] at h
      | bool b => simp [hpv] at h
      | null => simp [hpv] at h
      | obj kvs => simp [hpv] at h
      | arr items => simp [hpv] at h
    | existsS =>
      simp only [Except.ok.injEq, Prod.mk.injEq] at h
      exact ⟨h.1.symm, h.2.symm⟩
    | notExistsS =>
      simp only [Except.ok.injEq, Prod.mk.injEq] at h
      exact ⟨h.1.symm, h.2.symm⟩

/-- Folding successfully parsed fragments with distinct keys appends each
entry in order. -/
theorem fold_where_entries (contextVar : String) :
    ∀ (frags : List (List Char)) (entries : List (String × Doc))
      (acc : List (String × Doc)),
    List.Forall₂
      (fun frag e =>
        parse_single_condition (String.mk frag) contextVar = Except.ok e)
      frags entries →
    (∀ e ∈ entries, ∀ p ∈ acc, (p : String × Doc).1 ≠ (e : String × Doc).1) →
    (entries.map Prod.fst).Nodup →
    frags.foldlM
      (fun acc frag =>
        (parse_single_condition (String.mk frag) contextVar).map
          (fun e => setKey acc e.1 e.2))
      acc = Except.ok (acc ++ entries) := by
  intro frags
  induction frags with
  | nil =>
    intro entries acc hpar hdis hnodup
    cases hpar
    simp
    rfl
  | cons frag rest ih =>
    intro entries acc hpar hdis hnodup
    cases hpar with
    | cons he hrest =>
      rename_i e es
      simp only [List.foldlM_cons, he]
      have hset : setKey acc e.1 e.2 = acc ++ [e] := by
        apply setKey_append
        intro p hp
        exact hdis e (by simp) p hp
      have hmap :
          (Except.ok e : Except ConvError (String × Doc)).map
            (fun e => setKey acc e.1 e.2) = Except.ok (acc ++ [e]) := by
        simp [Except.map, hset]
      rw [hmap]
      have hdis' : ∀ e' ∈ es, ∀ p ∈ acc ++ [e],
          (p : String × Doc).1 ≠ (e' : String × Doc).1 := by
        intro e' he' p hp
        rcases List.mem_append.mp hp with hpa | hpe
        · exact hdis e' (by simp [he']) p hpa
        · have hpeq : p = e := by simpa using hpe
          subst hpeq
          simp only [List.map_cons, List.nodup_cons] at hnodup
          intro heq
          apply hnodup.1
          rw [heq]
          exact List.mem_map.mpr ⟨e', he', rfl⟩
      have hnodup' : (es.map Prod.fst).Nodup := by
        simp only [List.map_cons, List.nodup_cons] at hnodup
        exact hnodup.2
      have := ih es (acc ++ [e]) hrest hdis' hnodup'
      simp only [Except.bind] at this ⊢
      rw [show (acc ++ [e]) ++ es = acc ++ (e :: es) by simp] at this
      exact this

theorem lookup_self_of_nodup {β : Type} :
    ∀ (m : List (String × β)), (m.map Prod.fst).Nodup →
      ∀ e ∈ m, lookupKey m e.1 = some e.2 := by
  intro m
  induction m with
  | nil =>
    intro _ e he
    cases he
  | cons p rest ih =>
    intro hnodup e he
    obtain ⟨pk, pv⟩ := p
    simp only [List.map_cons, List.nodup_cons] at hnodup
    rcases List.mem_cons.mp he with heq | hmem
    · subst heq
      simp [lookupKey]
    · have hne : ¬ pk = e.1 := by
        intro heq
        apply hnodup.1
        rw [heq]
        exact List.mem_map.mpr ⟨e, hmem, rfl⟩
      simp only [lookupKey, hne, if_neg hne]
      exact ih hnodup.2 e hmem

/-- C1: for every condition clause splitting into N AND-joined fragments,
each parsed by the condition catalogue, with pairwise distinct resolved
field paths, the Predicate Engine produces a Filter with exactly those N
entries — one key per fragment, each key the fragment's resolved path,
each value in the operator form of the fragment's first-matching shape. -/
theorem C1_filter_completeness (clause contextVar : String)
    (frags : List (List Char)) (entries : List (String × Doc))
    (hsplit : splitOnAndGo [] clause.data = frags)
    (hparse : List.Forall₂
      (fun frag e =>
        parse_single_condition (String.mk frag) contextVar = Except.ok e)
      frags entries)
    (hdistinct : (entries.map Prod.fst).Nodup) :
    parse_where_clause clause contextVar = .ok entries ∧
    entries.length = frags.length ∧
    (∀ e ∈ entries, lookupKey entries e.1 = some e.2) ∧
    List.Forall₂
      (fun frag e =>
        ∃ sh p raw,
          condMatch (stripParensL (String.mk frag).data) = some (sh, p, raw) ∧
          (e : String × Doc).1 = parse_path (String.mk p) contextVar ∧
          entryShaped sh e.2)
      frags entries := by
  have hfold := fold_where_entries contextVar frags entries [] hparse
    (by intro e he p hp; cases hp) hdistinct
  refine ⟨?_, ?_, ?_, ?_⟩
  · unfold parse_where_clause
    rw [hsplit]
    simpa using hfold
  · exact hparse.length_eq.symm
  · exact lookup_self_of_nodup entries hdistinct
  · refine hparse.imp (fun {frag} {e} h => ?_)
    obtain ⟨f, v⟩ := e
    exact parse_single_shape h

/-- C1 witness: a two-fragment conjunction with distinct paths. -/
theorem C1_filter_completeness_witness :
    parse_where_clause "$u/age > 18 and $u/name = \"John\"" "u" =
      .ok [("age", .obj [("$gt", .intLit "18")]), ("name", .str "John")] := by
  have h := (C1_filter_completeness "$u/age > 18 and $u/name = \"John\"" "u"
    ["$u/age > 18".data, "$u/name = \"John\"".data]
    [("age", .obj [("$gt", .intLit "18")]), ("name", .str "John")]
    rfl
    (List.Forall₂.cons rfl (List.Forall₂.cons rfl List.Forall₂.nil))
    (by decide)).1
  exact h

theorem lookup_foldl_one :
    ∀ (fields : List String) (acc : List (String × Nat)) (f : String),
    lookupKey (fields.foldl (fun m g => setKey m g 1) acc) f =
      if f ∈ fields then some 1 else lookupKey acc f := by
  intro fields
  induction fields with
  | nil =>
    intro acc f
    simp
  | cons g rest ih =>
    intro acc f
    simp only [List.foldl_cons]
    rw [ih]
    by_cases hf : f ∈ rest
    · simp [hf, List.mem_cons]
    · simp only [if_neg hf]
      rw [lookup_setKey]
      by_cases hfg : f = g
      · subst hfg
        simp [List.mem_cons]
      · have hgf : ¬ (g = f) := fun hh => hfg hh.symm
        simp [List.mem_cons, hfg, hf, hgf]

/-- C7: in a hierarchical Read whose result-shape clause references at
least one field under the context variable, every referenced field is
projected with value 1, and the reserved identifier field is excluded
(value 0) unless it was itself referenced, in which case it keeps 1. -/
theorem C7_projection_default_exclusion (returnClause contextVar : String)
    (hne : projectionFields returnClause contextVar ≠ []) :
    (∀ f ∈ projectionFields returnClause contextVar,
      lookupKey (parse_return_clause returnClause contextVar) f = some 1) ∧
    ("_id" ∉ projectionFields returnClause contextVar →
      lookupKey (parse_return_clause returnClause contextVar) "_id" = some 0) ∧
    ("_id" ∈ projectionFields returnClause contextVar →
      lookupKey (parse_return_clause returnClause contextVar) "_id" = some 1) := by
  have hprc : parse_return_clause returnClause contextVar =
      (if (!(projectionFields returnClause contextVar).isEmpty
            && (lookupKey ((projectionFields returnClause contextVar).foldl
                  (fun m f => setKey m f 1) []) "_id").isNone) = true
       then setKey ((projectionFields returnClause contextVar).foldl
              (fun m f => setKey m f 1) []) "_id" 0
       else (projectionFields returnClause contextVar).foldl
              (fun m f => setKey m f 1) []) := rfl
  set fields := projectionFields returnClause contextVar with hfdef
  set base := fields.foldl (fun m f => setKey m f 1) [] with hbdef
  have hbase : ∀ g, lookupKey base g = if g ∈ fields then some 1 else none := by
    intro g
    rw [hbdef, lookup_foldl_one]
    by_cases hg : g ∈ fields
    · simp [hg]
    · simp [hg, lookupKey]
  rw [hprc]
  by_cases hid : "_id" ∈ fields
  · have h1 : lookupKey base "_id" = some 1 := by
      rw [hbase]
      simp [hid]
    rw [if_neg (by rw [h1]; simp)]
    refine ⟨fun f hfm => ?_, fun hnid => absurd hid hnid, fun _ => h1⟩
    rw [hbase]
    simp [hfm]
  · have h1 : lookupKey base "_id" = none := by
      rw [hbase]
      simp [hid]
    have hcond : (!fields.isEmpty && (lookupKey base "_id").isNone) = true := by
      rw [h1]
      cases hfc : fields
      · exact absurd hfc hne
      · simp
    rw [if_pos hcond]
    refine ⟨fun f hfm => ?_, fun _ => ?_, fun hmem => absurd hmem hid⟩
    · rw [lookup_setKey]
      have hne2 : ¬ ("_id" = f) := fun hh => hid (hh ▸ hfm)
      rw [if_neg hne2, hbase]
      simp [hfm]
    · rw [lookup_setKey]
      simp

/-- C7 witness: two projected fields, no identifier reference, and an
explicit identifier reference. -/
theorem C7_projection_default_exclusion_witness :
    parse_return_clause "$u/name, $u/age" "u" =
      [("name", 1), ("age", 1), ("_id", 0)] ∧
    lookupKey (parse_return_clause "$u/name, $u/age" "u") "name" = some 1 ∧
    lookupKey (parse_return_clause "$u/name, $u/age" "u") "_id" = some 0 ∧
    lookupKey (parse_return_clause "$u/_id" "u") "_id" = some 1 := by
  refine ⟨rfl, ?_, ?_, ?_⟩
  · exact (C7_projection_default_exclusion "$u/name, $u/age" "u"
      (by decide)).1 "name" (by decide)
  · exact (C7_projection_default_exclusion "$u/name, $u/age" "u"
      (by decide)).2.1 (by decide)
  · exact (C7_projection_default_exclusion "$u/_id" "u"
      (by decide)).2.2 (by decide)

/-- No condition clause present: the where-search finds nothing, or finds
a clause that strips to the empty string (falsy in the source). -/
def whereAbsent (wc : Option (List Char)) : Prop :=
  wc = none ∨ ∃ w, wc = some w ∧ pyStripL w = []

theorem buildQuery_empty (wc : Option (List Char)) (contextVar : String)
    (h : whereAbsent wc) : buildQuery wc contextVar = .ok (.obj []) := by
  rcases h with h | ⟨w, hw, hs⟩
  · rw [h]
    rfl
  · rw [hw]
    simp [buildQuery, hs]

/-- C8: every successfully translated Read, Update or Delete with no
condition clause carries the empty (match-all) filter: the shorthand find
with an absent filter literal, the hierarchical Read with an absent (or
blank) where clause, the hierarchical Delete, and both hierarchical
Update forms. -/
theorem C8_empty_filter_invariant :
    (∀ (s : String) (coll : String) (q : List Char),
      searchFindShorthand s.data = some (coll, q) →
      cleanupBrace (pyStripL q) = [] →
      parse_read s = .ok { collection := coll, operation := "find",
                           filter := some (.obj []) }) ∧
    (∀ (s : String) (v coll : String) (rest : List Char),
      searchFindShorthand s.data = none →
      searchForIn s.data = some (v, coll, rest) →
      whereAbsent (searchWhereRead rest) →
      ∃ op, parse_read s = .ok op ∧ op.filter = some (.obj []) ∧
        op.operation = "find") ∧
    (∀ (s : String) (target : List Char) (coll : String)
       (vname : List Char) (seg : Option (List Char)),
      searchRemoveShorthand s.data = none →
      searchDeleteNode s.data = some target →
      searchInCollection s.data = some coll →
      searchPathParts (pyStripL target) = some (vname, seg) →
      whereAbsent (searchWhereUD s.data) →
      parse_delete s = .ok { collection := coll, operation := "deleteMany",
                             filter := some (.obj []) }) ∧
    (∀ (s : String) (tr rr : List Char) (coll : String)
       (vname : List Char) (fo : Option (List Char)),
      searchUpdateShorthand s.data = none →
      searchReplaceNode s.data = some (tr, rr) →
      searchInCollection s.data = some coll →
      searchPathParts (pyStripL tr) = some (vname, fo) →
      whereAbsent (searchWhereUD s.data) →
      ∃ op, parse_update s = .ok op ∧ op.filter = some (.obj []) ∧
        op.operation = "updateMany") ∧
    (∀ (s : String) (tr vr : List Char) (coll : String)
       (vname : List Char) (fo : Option (List Char)),
      searchUpdateShorthand s.data = none →
      searchReplaceNode s.data = none →
      searchUpdateValue s.data = some (tr, vr) →
      searchInCollection s.data = some coll →
      searchPathParts (pyStripL tr) = some (vname, fo) →
      whereAbsent (searchWhereUD s.data) →
      ∃ op, parse_update s = .ok op ∧ op.filter = some (.obj []) ∧
        op.operation = "updateMany") := by
  refine ⟨?_, ?_, ?_, ?_, ?_⟩
  · intro s coll q hfind hempty
    unfold parse_read
    rw [hfind]
    simp [hempty]
  · intro s v coll rest hfind hforin hwhere
    unfold parse_read
    simp only [hfind, hforin]
    rw [buildQuery_empty _ _ hwhere]
    exact ⟨_, rfl, rfl, rfl⟩
  · intro s target coll vname seg hrem hdel hcoll hpath hwhere
    unfold parse_delete
    simp only [hrem, hdel, hcoll, hpath]
    rw [buildQuery_empty _ _ hwhere]
    rfl
  · intro s tr rr coll vname fo hsh hrepl hcoll hpath hwhere
    unfold parse_update
    simp only [hsh, hrepl, hcoll, hpath]
    rw [buildQuery_empty _ _ hwhere]
    exact ⟨_, rfl, rfl, rfl⟩
  · intro s tr vr coll vname fo hsh hrepl hupdv hcoll hpath hwhere
    unfold parse_update
    simp only [hsh, hrepl, hupdv, hcoll, hpath]
    rw [buildQuery_empty _ _ hwhere]
    exact ⟨_, rfl, rfl, rfl⟩

/-- C8 witness: an absent shorthand filter literal and an absent
hierarchical where clause. -/
theorem C8_empty_filter_invariant_witness :
    parse_read "db.collection(\"users\").find()" =
      .ok { collection := "users", operation := "find",
            filter := some (.obj []) } ∧
    parse_delete "delete node $u in collection(\"users\")" =
      .ok { collection := "users", operation := "deleteMany",
            filter := some (.obj []) } := by
  constructor
  · exact C8_empty_filter_invariant.1 "db.collection(\"users\").find()"
      "users" [] rfl rfl
  · exact C8_empty_filter_invariant.2.2.1 "delete node $u in collection(\"users\")"
      "$u ".data "users" "u".data none rfl rfl rfl rfl (Or.inl rfl)

end ML2Mongo
